import Mathlib

/-!
Shallow embedding of the maze-generation module `src/js/maze.js`
(recursive-backtracking maze generator on a 2D occupancy grid),
together with proofs of the specification claims about it.

Modelling conventions:
* A grid is a `List (List Nat)` of cell values, exactly as the JS code
  stores `this.grid` as an array of row arrays; cell values are the JS
  numbers 1 = wall, 0 = passage, 2 = exit.  The value 3 models a JS
  array hole (created by writing past the end of a row): a hole reads
  back as `undefined`, which is `!== 1` and `!== 2`, and the sentinel 3
  behaves identically under every read the module performs.
* JS dimensions and coordinates are arbitrary integers, so they are
  modelled as `Int`.
* A JS property write `this.grid[z][x] = v` throws a TypeError when
  `this.grid[z]` is `undefined` (row index out of range); this is
  modelled by `writeCell` returning `Except.error`.  A write at a
  negative column index creates a non-index property that no read of
  this module ever observes, so it is modelled as a no-op.
* `Math.random()` is modelled by an oracle `rand : Nat → Nat` giving
  the successive draws `Math.floor(Math.random() * n)` as `rand k % n`,
  which ranges over exactly the same set `{0, …, n-1}` of values.
* The unbounded JS recursion of `carvePassages` is modelled with a fuel
  parameter; `generate` passes `width·height + 1` fuel, and the proof
  `carvePassages_fuel_ok` shows the fuel is never exhausted, so the
  fueled function agrees with the JS recursion wherever the latter
  terminates (which it does, as the same proof shows).
-/

deriving instance DecidableEq for Except

/-- The four carving directions, in the order they are listed in
`carvePassages` before shuffling: North, East, South, West. -/
inductive Dir
  | north
  | east
  | south
  | west
deriving DecidableEq, Repr

/-- The `dx` component of a direction (`{dx: 0, dz: -2}` etc.). -/
def Dir.dx : Dir → Int
  | .north => 0
  | .east => 2
  | .south => 0
  | .west => -2

/-- The `dz` component of a direction. -/
def Dir.dz : Dir → Int
  | .north => -2
  | .east => 0
  | .south => 2
  | .west => 0

/-- The direction array literal of `carvePassages`, in source order. -/
def dirs4 : List Dir := [.north, .east, .south, .west]

/-- One Fisher-Yates swap `[arr[i], arr[j]] = [arr[j], arr[i]]`.
Both indices are always in range in the JS code; the fallback branch is
unreachable there. -/
def listSwap (l : List α) (i j : Nat) : List α :=
  match l[i]?, l[j]? with
  | some a, some b => (l.set i b).set j a
  | _, _ => l

/-- The loop of `shuffleArray`: `for (i = len-1; i > 0; i--)` with
`j = Math.floor(Math.random() * (i + 1))`; the k-th random draw of the
run is `rand k`. -/
def shuffleAux (rand : Nat → Nat) : Nat → List α → Nat → List α
  | _, l, 0 => l
  | k, l, i + 1 => shuffleAux rand (k + 1) (listSwap l (i + 1) (rand k % (i + 2))) i

/-- `shuffleArray(array)`: Fisher-Yates shuffle of a copy of the array,
consuming `array.length - 1` random draws starting at draw index `k`. -/
def shuffleArray (rand : Nat → Nat) (k : Nat) (l : List α) : List α :=
  shuffleAux rand k l (l.length - 1)

/-- The grid type: `this.grid`, an array of row arrays indexed `[z][x]`. -/
abbrev Grid := List (List Nat)

/-- Read `this.grid[z][x]` as performed by the query methods: a missing
row or a missing cell reads as `none` (JS `undefined`), a negative index
likewise reads a property that is never an array element. -/
def getCell (g : Grid) (x z : Int) : Option Nat :=
  if 0 ≤ x ∧ 0 ≤ z then (g[z.toNat]?).bind (fun row => row[x.toNat]?) else none

/-- Write `row[x] = v` inside a row: in-range indices overwrite, the
index equal to the length appends, larger indices create holes
(modelled by the sentinel 3, see the header comment). -/
def setPad (row : List Nat) (x : Nat) (v : Nat) : List Nat :=
  if x < row.length then row.set x v
  else row ++ List.replicate (x - row.length) 3 ++ [v]

/-- Write `this.grid[z][x] = v`.  When `this.grid[z]` is `undefined`
(row index out of range) the JS assignment throws a TypeError, modelled
as `Except.error`.  A negative column index writes a non-index property
that no read of the module observes, modelled as a no-op. -/
def writeCell (g : Grid) (z x : Int) (v : Nat) : Except Unit Grid :=
  if 0 ≤ z ∧ z.toNat < g.length then
    if 0 ≤ x then .ok (g.set z.toNat (setPad (g.getD z.toNat []) x.toNat v))
    else .ok g
  else .error ()

/-- The in-range special case of `writeCell` (no padding, no error),
used to state lemmas about grids of full rectangular shape. -/
def setCell (g : Grid) (z x : Int) (v : Nat) : Grid :=
  g.set z.toNat ((g.getD z.toNat []).set x.toNat v)

/-- Number of wall cells of the grid; the termination measure of the
carving recursion. -/
def wallCount (g : Grid) : Nat :=
  (g.map (fun row => row.count 1)).sum

/-- How a run of the modelled `carvePassages` can fail: a JS TypeError
(writing into a missing row), or fuel exhaustion of the model (proved
unreachable for the fuel `generate` supplies). -/
inductive CarveErr
  | typeError
  | outOfFuel
deriving DecidableEq, Repr

/-- The `for (const dir of directions)` loop body of `carvePassages`:
check bounds and wall, carve the midpoint wall, recurse into the
neighbor.  `recur` is the recursive call (one fuel level down).  The
guarded neighbor read `this.grid[newZ][newX] === 1` is modelled with
the total `getCell`; the bounds conjuncts before it guarantee the row
exists in every reachable call, exactly as in JS short-circuit
evaluation. -/
def carveLoop (W H : Int) (recur : Grid → Int → Int → Nat → Except CarveErr (Grid × Nat))
    (x z : Int) : List Dir → Grid → Nat → Except CarveErr (Grid × Nat)
  | [], g, k => .ok (g, k)
  | d :: ds, g, k =>
    if 0 < x + d.dx ∧ x + d.dx < W - 1 ∧ 0 < z + d.dz ∧ z + d.dz < H - 1 ∧
        getCell g (x + d.dx) (z + d.dz) = some 1 then
      match writeCell g (z + d.dz / 2) (x + d.dx / 2) 0 with
      | .error _ => .error .typeError
      | .ok g1 =>
        match recur g1 (x + d.dx) (z + d.dz) k with
        | .error e => .error e
        | .ok (g2, k2) => carveLoop W H recur x z ds g2 k2
    else
      carveLoop W H recur x z ds g k

/-- `carvePassages(x, z)`: mark the current cell as passage, then try
the shuffled directions in order.  Each call consumes the three random
draws of its shuffle, so the draw counter advances by 3. -/
def carvePassages (rand : Nat → Nat) (W H : Int) :
    Nat → Grid → Int → Int → Nat → Except CarveErr (Grid × Nat)
  | 0, _, _, _, _ => .error .outOfFuel
  | fuel + 1, g, x, z, k =>
    match writeCell g z x 0 with
    | .error _ => .error .typeError
    | .ok g1 => carveLoop W H (carvePassages rand W H fuel) x z (shuffleArray rand k dirs4) g1 (k + 3)

/-- Dimension normalization of the constructor:
`width % 2 === 0 ? width + 1 : width`. -/
def normDim (d : Int) : Int :=
  if d % 2 = 0 then d + 1 else d

/-- The `MazeGenerator` instance state: normalized dimensions and the
current grid.  `start` and `end` are set in the constructor from the
(immutable) normalized dimensions, so they are modelled as the derived
accessors `getStart` and `getEnd`. -/
structure MazeGenerator where
  width : Int
  height : Int
  grid : Grid
deriving DecidableEq, Repr

/-- The constructor `new MazeGenerator(width, height)`: normalize both
dimensions to odd and start with the empty grid. -/
def MazeGenerator.make (width height : Int) : MazeGenerator :=
  { width := normDim width, height := normDim height, grid := [] }

/-- `generate()`: fill a `height × width` grid with walls, carve from
`(1, 1)`, force the start cell open, then force the end cell open and
mark it as the exit.  Each grid write can throw in JS, hence the
`Except`. -/
def MazeGenerator.generate (rand : Nat → Nat) (m : MazeGenerator) : Except CarveErr MazeGenerator :=
  match carvePassages rand m.width m.height (m.width.toNat * m.height.toNat + 1)
      (List.replicate m.height.toNat (List.replicate m.width.toNat 1)) 1 1 0 with
  | .error e => .error e
  | .ok (gc, _) =>
    match writeCell gc 1 1 0 with
    | .error _ => .error .typeError
    | .ok g2 =>
      match writeCell g2 (m.height - 2) (m.width - 2) 0 with
      | .error _ => .error .typeError
      | .ok g3 =>
        match writeCell g3 (m.height - 2) (m.width - 2) 2 with
        | .error _ => .error .typeError
        | .ok g4 => .ok { m with grid := g4 }

/-- `getStart()`: always `{x: 1, z: 1}`. -/
def MazeGenerator.getStart (_ : MazeGenerator) : Int × Int := (1, 1)

/-- `getEnd()`: `{x: width - 2, z: height - 2}` with the normalized
dimensions fixed at construction. -/
def MazeGenerator.getEnd (m : MazeGenerator) : Int × Int := (m.width - 2, m.height - 2)

/-- `isWall(x, z)`: out-of-bounds coordinates are walls; otherwise read
the cell.  Reading `this.grid[z]` of a missing row throws in JS
(`Except.error`); a missing cell inside an existing row reads as
`undefined`, which is `!== 1`. -/
def MazeGenerator.isWall (m : MazeGenerator) (x z : Int) : Except Unit Bool :=
  if x < 0 ∨ m.width ≤ x ∨ z < 0 ∨ m.height ≤ z then .ok true
  else
    match m.grid[z.toNat]? with
    | none => .error ()
    | some row => .ok (row[x.toNat]? == some 1)

/-- `isExit(x, z)`: out-of-bounds coordinates are never the exit;
otherwise read the cell, with the same TypeError behavior as `isWall`. -/
def MazeGenerator.isExit (m : MazeGenerator) (x z : Int) : Except Unit Bool :=
  if x < 0 ∨ m.width ≤ x ∨ z < 0 ∨ m.height ≤ z then .ok false
  else
    match m.grid[z.toNat]? with
    | none => .error ()
    | some row => .ok (row[x.toNat]? == some 2)

/-- `getWidth()`. -/
def MazeGenerator.getWidth (m : MazeGenerator) : Int := m.width

/-- `getHeight()`. -/
def MazeGenerator.getHeight (m : MazeGenerator) : Int := m.height

/-! ### Derived predicates and objects used to state the claims -/

/-- A grid of the full rectangular shape `height × width`: exactly the
grids `generate` builds and carves. -/
def WF (W H : Int) (g : Grid) : Prop :=
  g.length = H.toNat ∧ ∀ row ∈ g, row.length = W.toNat

/-- Carving only turns cells into passages: every cell of the evolved
grid is unchanged or open. -/
def OnlyOpens (g g2 : Grid) : Prop :=
  ∀ a b : Int, getCell g2 a b = getCell g a b ∨ getCell g2 a b = some 0

/-- All in-bounds coordinates of a `width × height` grid. -/
def board (W H : Int) : Finset (Int × Int) :=
  Finset.Ico 0 W ×ˢ Finset.Ico 0 H

/-- The set of carved (passage) cells during carving. -/
def openSet (W H : Int) (g : Grid) : Finset (Int × Int) :=
  (board W H).filter (fun p => getCell g p.1 p.2 = some 0)

/-- Horizontal open adjacencies, identified by their left endpoint. -/
def edgeH (W H : Int) (g : Grid) : Finset (Int × Int) :=
  (board W H).filter (fun p => getCell g p.1 p.2 = some 0 ∧ getCell g (p.1 + 1) p.2 = some 0)

/-- Vertical open adjacencies, identified by their top endpoint. -/
def edgeV (W H : Int) (g : Grid) : Finset (Int × Int) :=
  (board W H).filter (fun p => getCell g p.1 p.2 = some 0 ∧ getCell g p.1 (p.2 + 1) = some 0)

/-- 4-adjacency of two coordinates. -/
def adjacent (p q : Int × Int) : Prop :=
  (p.1 - q.1).natAbs + (p.2 - q.2).natAbs = 1

/-- One step along the passage graph during carving: move to an open
4-neighbor. -/
def stepOpen (g : Grid) (p q : Int × Int) : Prop :=
  getCell g q.1 q.2 = some 0 ∧ adjacent p q

/-- Reachability from the start cell `(1, 1)` through open cells. -/
def ReachOpen (g : Grid) (p : Int × Int) : Prop :=
  Relation.ReflTransGen (stepOpen g) (1, 1) p

/-- A carved room cell is done: every step-2 neighbor strictly inside
the border ring is itself carved.  At the end of carving this holds for
every carved room cell, which forces the whole interior room lattice to
be carved. -/
def roomDone (W H : Int) (g : Grid) (a b : Int) : Prop :=
  ∀ d : Dir, 0 < a + d.dx → a + d.dx < W - 1 → 0 < b + d.dz → b + d.dz < H - 1 →
    getCell g (a + d.dx) (b + d.dz) = some 0

/-- The carving invariant: the carved cells form a spanning tree of the
visited part of the room lattice.  `vals`: every in-bounds cell is 0 or
1; `interior`: carved cells are strictly inside the border ring;
`parity`: no carved cell has two even coordinates; `midH`/`midV`: a
carved midpoint has both of its room endpoints carved; `reach`: every
carved cell is connected to the start; `card`: tree balance (nodes =
edges + 1). -/
structure CarveInv (W H : Int) (g : Grid) : Prop where
  wf : WF W H g
  vals : ∀ a b : Int, 0 ≤ a → a < W → 0 ≤ b → b < H →
    getCell g a b = some 0 ∨ getCell g a b = some 1
  interior : ∀ a b : Int, getCell g a b = some 0 → 0 < a ∧ a < W - 1 ∧ 0 < b ∧ b < H - 1
  parity : ∀ a b : Int, getCell g a b = some 0 → a % 2 = 1 ∨ b % 2 = 1
  midH : ∀ a b : Int, getCell g a b = some 0 → a % 2 = 0 →
    getCell g (a - 1) b = some 0 ∧ getCell g (a + 1) b = some 0
  midV : ∀ a b : Int, getCell g a b = some 0 → b % 2 = 0 →
    getCell g a (b - 1) = some 0 ∧ getCell g a (b + 1) = some 0
  reach : ∀ a b : Int, getCell g a b = some 0 → ReachOpen g (a, b)
  card : (openSet W H g).card = (edgeH W H g).card + (edgeV W H g).card + 1

/-- The contract of a recursive call of `carvePassages`, used to prove
the carving invariant by induction on fuel: called on a wall room cell
strictly inside the border ring, in a grid whose marked version
satisfies the invariant, a successful run returns a grid that satisfies
the invariant, preserves open cells, only opens cells, and leaves every
room it opened with all its interior step-2 neighbors open. -/
def CarveSpec (W H : Int) (c : Grid → Int → Int → Nat → Except CarveErr (Grid × Nat)) : Prop :=
  ∀ (g : Grid) (x z : Int) (k : Nat) (g2 : Grid) (k2 : Nat),
    x % 2 = 1 → z % 2 = 1 → 0 < x → x < W - 1 → 0 < z → z < H - 1 →
    getCell g x z = some 1 → WF W H g → CarveInv W H (setCell g z x 0) →
    c g x z k = .ok (g2, k2) →
    CarveInv W H g2 ∧
    (∀ a b : Int, getCell (setCell g z x 0) a b = some 0 → getCell g2 a b = some 0) ∧
    (∀ a b : Int, getCell g2 a b = getCell (setCell g z x 0) a b ∨ getCell g2 a b = some 0) ∧
    (∀ a b : Int, a % 2 = 1 → b % 2 = 1 → getCell g a b = some 1 → getCell g2 a b = some 0 →
      roomDone W H g2 a b)

/-- A coordinate the module reports as walkable: `isWall` returns
`false` (so in particular it does not throw). -/
def walkable (m : MazeGenerator) (p : Int × Int) : Prop :=
  m.isWall p.1 p.2 = .ok false

instance walkableDec (m : MazeGenerator) : DecidablePred (walkable m) := fun p => by
  unfold walkable
  infer_instance

/-- The non-wall cells of a generated maze (Passage plus Exit). -/
def mazeCells (m : MazeGenerator) : Finset (Int × Int) :=
  (board m.width m.height).filter (fun p => walkable m p)

/-- Horizontal walkable adjacencies of a generated maze, by left endpoint. -/
def mazeEdgeH (m : MazeGenerator) : Finset (Int × Int) :=
  (board m.width m.height).filter (fun p => walkable m p ∧ walkable m (p.1 + 1, p.2))

/-- Vertical walkable adjacencies of a generated maze, by top endpoint. -/
def mazeEdgeV (m : MazeGenerator) : Finset (Int × Int) :=
  (board m.width m.height).filter (fun p => walkable m p ∧ walkable m (p.1, p.2 + 1))

/-- One step of movement through the generated maze: to a walkable
4-neighbor. -/
def mazeStep (m : MazeGenerator) (p q : Int × Int) : Prop :=
  walkable m q ∧ adjacent p q

/-- Reachability from a cell through walkable cells of the maze. -/
def mazeReach (m : MazeGenerator) (s p : Int × Int) : Prop :=
  Relation.ReflTransGen (mazeStep m) s p

/-- A fixed random oracle, used to run the generator on concrete
inputs in witness theorems. -/
def randZero : Nat → Nat := fun _ => 0

/-- A concrete generated 5 by 5 maze used by witness theorems. -/
def demoMaze : MazeGenerator :=
  match (MazeGenerator.make 5 5).generate randZero with
  | .ok m => m
  | .error _ => MazeGenerator.make 5 5

/-! ### Shuffle lemmas: a Fisher-Yates shuffle has the same elements -/

theorem count_set_of_getElem [DecidableEq α] :
    ∀ (l : List α) (n : Nat) (b : α), l[n]? = some b →
      ∀ (a v : α), (l.set n a).count v + (if b = v then 1 else 0) =
        l.count v + (if a = v then 1 else 0)
  | [], n, b, h, _, _ => by simp at h
  | hd :: tl, 0, b, h, a, v => by
    simp only [List.getElem?_cons_zero, Option.some.injEq] at h
    subst h
    simp only [List.set_cons_zero, List.count_cons, beq_iff_eq]
    omega
  | hd :: tl, n + 1, b, h, a, v => by
    simp only [List.getElem?_cons_succ] at h
    simp only [List.set_cons_succ, List.count_cons, beq_iff_eq]
    have := count_set_of_getElem tl n b h a v
    omega

theorem length_lt_of_getElem? {l : List α} {n : Nat} {a : α} (h : l[n]? = some a) :
    n < l.length := by
  by_contra hc
  rw [List.getElem?_eq_none (by omega)] at h
  cases h

theorem count_listSwap [DecidableEq α] (l : List α) (i j : Nat) (v : α) :
    (listSwap l i j).count v = l.count v := by
  unfold listSwap
  rcases hi : l[i]? with _ | a <;> rcases hj : l[j]? with _ | b
  · rfl
  · rfl
  · rfl
  · show ((l.set i b).set j a).count v = l.count v
    by_cases hij : i = j
    · subst hij
      rw [hi] at hj
      injection hj with hj
      subst hj
      have h1 := count_set_of_getElem l i a hi a v
      have h2 := count_set_of_getElem (l.set i a) i a
        (List.getElem?_set_eq_of_lt a (length_lt_of_getElem? hi)) a v
      omega
    · have h1 := count_set_of_getElem l i a hi b v
      have h2 := count_set_of_getElem (l.set i b) j b
        (by rw [List.getElem?_set_ne hij]; exact hj) a v
      omega

theorem mem_listSwap [DecidableEq α] (l : List α) (i j : Nat) (a : α) :
    a ∈ listSwap l i j ↔ a ∈ l := by
  rw [← List.count_pos_iff, ← List.count_pos_iff, count_listSwap]

theorem mem_shuffleAux [DecidableEq α] (rand : Nat → Nat) :
    ∀ (i k : Nat) (l : List α) (a : α), a ∈ shuffleAux rand k l i ↔ a ∈ l
  | 0, _, _, _ => Iff.rfl
  | i + 1, k, l, a => by
    rw [shuffleAux, mem_shuffleAux rand i, mem_listSwap]

theorem mem_shuffleArray [DecidableEq α] (rand : Nat → Nat) (k : Nat) (l : List α) (a : α) :
    a ∈ shuffleArray rand k l ↔ a ∈ l :=
  mem_shuffleAux rand (l.length - 1) k l a

/-! ### Grid shape and cell access lemmas -/

theorem getD_eq_of_lt (g : Grid) (z : Nat) (hz : z < g.length) :
    g[z]? = some (g.getD z []) := by
  rw [List.getElem?_eq_getElem hz]
  congr 1
  rw [List.getD_eq_getElem?_getD, List.getElem?_eq_getElem hz]
  rfl

theorem WF.rowLength {W H : Int} {g : Grid} (h : WF W H g) {z : Nat} (hz : z < g.length) :
    (g.getD z []).length = W.toNat :=
  h.2 _ (List.getElem?_mem (getD_eq_of_lt g z hz))

theorem WF_mkGrid (W H : Int) :
    WF W H (List.replicate H.toNat (List.replicate W.toNat 1)) := by
  constructor
  · rw [List.length_replicate]
  · intro row hrow
    rw [List.eq_of_mem_replicate hrow, List.length_replicate]

theorem getCell_mkGrid (W H : Int) (x z : Int) :
    getCell (List.replicate H.toNat (List.replicate W.toNat 1)) x z =
      if 0 ≤ x ∧ x < W ∧ 0 ≤ z ∧ z < H then some 1 else none := by
  unfold getCell
  by_cases h1 : 0 ≤ x ∧ 0 ≤ z
  · rw [if_pos h1, List.getElem?_replicate]
    by_cases h2 : z.toNat < H.toNat
    · rw [if_pos h2, Option.some_bind, List.getElem?_replicate]
      by_cases h3 : x.toNat < W.toNat
      · rw [if_pos h3, if_pos (by omega)]
      · rw [if_neg h3, if_neg (by omega)]
    · rw [if_neg h2, Option.none_bind, if_neg (by omega)]
  · rw [if_neg h1, if_neg (by omega)]

theorem getCell_some_bounds {W H : Int} {g : Grid} (hwf : WF W H g) {x z : Int} {v : Nat}
    (h : getCell g x z = some v) : 0 ≤ x ∧ x < W ∧ 0 ≤ z ∧ z < H := by
  unfold getCell at h
  by_cases h1 : 0 ≤ x ∧ 0 ≤ z
  · rw [if_pos h1] at h
    rcases hz : g[z.toNat]? with _ | row
    · rw [hz, Option.none_bind] at h; cases h
    · rw [hz, Option.some_bind] at h
      have hzlen := length_lt_of_getElem? hz
      have hxlen := length_lt_of_getElem? h
      have hrow : row.length = W.toNat := hwf.2 _ (List.getElem?_mem hz)
      rw [hwf.1] at hzlen
      rw [hrow] at hxlen
      omega
  · rw [if_neg h1] at h; cases h

theorem getCell_total {W H : Int} {g : Grid} (hwf : WF W H g) {x z : Int}
    (hx : 0 ≤ x) (hxW : x < W) (hz : 0 ≤ z) (hzH : z < H) :
    ∃ v, getCell g x z = some v := by
  have hzlen : z.toNat < g.length := by rw [hwf.1]; omega
  have hxlen : x.toNat < (g.getD z.toNat []).length := by rw [hwf.rowLength hzlen]; omega
  unfold getCell
  rw [if_pos ⟨hx, hz⟩, getD_eq_of_lt g _ hzlen, Option.some_bind]
  exact ⟨_, List.getElem?_eq_getElem hxlen⟩

theorem getCell_setCell {W H : Int} {g : Grid} (hwf : WF W H g) {x z : Int} (v : Nat)
    (hx : 0 ≤ x) (hxW : x < W) (hz : 0 ≤ z) (hzH : z < H) (a b : Int) :
    getCell (setCell g z x v) a b =
      if a = x ∧ b = z then some v else getCell g a b := by
  have hzlen : z.toNat < g.length := by rw [hwf.1]; omega
  have hxlen : x.toNat < (g.getD z.toNat []).length := by rw [hwf.rowLength hzlen]; omega
  by_cases hab : 0 ≤ a ∧ 0 ≤ b
  · obtain ⟨ha, hb⟩ := hab
    by_cases hbz : b = z
    · by_cases hax : a = x
      · subst hbz
        subst hax
        rw [if_pos ⟨rfl, rfl⟩]
        unfold getCell setCell
        rw [if_pos ⟨ha, hb⟩, List.getElem?_set_eq_of_lt _ hzlen, Option.some_bind]
        exact List.getElem?_set_eq_of_lt v hxlen
      · subst hbz
        rw [if_neg (fun hc => hax hc.1)]
        unfold getCell setCell
        rw [if_pos ⟨ha, hb⟩, if_pos ⟨ha, hb⟩, List.getElem?_set_eq_of_lt _ hzlen,
          getD_eq_of_lt g _ hzlen, Option.some_bind, Option.some_bind]
        rw [List.getElem?_set_ne (show x.toNat ≠ a.toNat by omega)]
    · rw [if_neg (fun hc => hbz hc.2)]
      unfold getCell setCell
      rw [if_pos ⟨ha, hb⟩, if_pos ⟨ha, hb⟩,
        List.getElem?_set_ne (show z.toNat ≠ b.toNat by omega)]
  · rw [if_neg (by rintro ⟨rfl, rfl⟩; exact hab ⟨hx, hz⟩)]
    unfold getCell setCell
    rw [if_neg hab, if_neg hab]

theorem WF_setCell {W H : Int} {g : Grid} (hwf : WF W H g) {z : Int} (x : Int) (v : Nat)
    (hz : 0 ≤ z) (hzH : z < H) : WF W H (setCell g z x v) := by
  have hzlen : z.toNat < g.length := by rw [hwf.1]; omega
  constructor
  · rw [setCell, List.length_set, hwf.1]
  · intro row hrow
    rcases List.mem_or_eq_of_mem_set hrow with h | h
    · exact hwf.2 _ h
    · subst h
      rw [List.length_set]
      exact hwf.rowLength hzlen

theorem writeCell_eq_setCell {W H : Int} {g : Grid} (hwf : WF W H g) {x z : Int} (v : Nat)
    (hx : 0 ≤ x) (hxW : x < W) (hz : 0 ≤ z) (hzH : z < H) :
    writeCell g z x v = .ok (setCell g z x v) := by
  have hzlen : z.toNat < g.length := by rw [hwf.1]; omega
  have hxlen : x.toNat < (g.getD z.toNat []).length := by rw [hwf.rowLength hzlen]; omega
  unfold writeCell setCell setPad
  rw [if_pos ⟨hz, hzlen⟩, if_pos hx, if_pos hxlen]

/-! ### Monotone evolution of grids under carving -/

theorem OnlyOpens.refl (g : Grid) : OnlyOpens g g := fun _ _ => Or.inl rfl

theorem OnlyOpens.trans {g1 g2 g3 : Grid} (h1 : OnlyOpens g1 g2) (h2 : OnlyOpens g2 g3) :
    OnlyOpens g1 g3 := by
  intro a b
  rcases h2 a b with h | h
  · rw [h]
    exact h1 a b
  · exact Or.inr h

theorem OnlyOpens.keeps {g g2 : Grid} (h : OnlyOpens g g2) {a b : Int}
    (ho : getCell g a b = some 0) : getCell g2 a b = some 0 := by
  rcases h a b with h2 | h2
  · rw [h2, ho]
  · exact h2

theorem getCell_expand {g : Grid} {x z : Int} {v : Nat} (h : getCell g x z = some v) :
    0 ≤ x ∧ 0 ≤ z ∧ z.toNat < g.length ∧ x.toNat < (g.getD z.toNat []).length ∧
      (g.getD z.toNat [])[x.toNat]? = some v := by
  unfold getCell at h
  by_cases h1 : 0 ≤ x ∧ 0 ≤ z
  · rw [if_pos h1] at h
    rcases hz : g[z.toNat]? with _ | row
    · rw [hz, Option.none_bind] at h
      cases h
    · rw [hz, Option.some_bind] at h
      have hzl := length_lt_of_getElem? hz
      have hrow : g.getD z.toNat [] = row := by
        have := getD_eq_of_lt g z.toNat hzl
        rw [hz] at this
        injection this with this
        exact this.symm
      rw [hrow]
      exact ⟨h1.1, h1.2, hzl, length_lt_of_getElem? h, h⟩
  · rw [if_neg h1] at h
    cases h

/-! ### Row-count bookkeeping for the termination measure -/

theorem sum_set_nat : ∀ (l : List Nat) (n : Nat) (a : Nat), n < l.length →
    (l.set n a).sum + l.getD n 0 = l.sum + a
  | [], n, a, h => by simp at h
  | hd :: tl, 0, a, _ => by
    simp only [List.set_cons_zero, List.sum_cons, List.getD_cons_zero]
    omega
  | hd :: tl, n + 1, a, h => by
    simp only [List.set_cons_succ, List.sum_cons, List.getD_cons_succ]
    have := sum_set_nat tl n a (by simpa using h)
    omega

theorem getD_map_count (g : Grid) (z : Nat) (hz : z < g.length) :
    (g.map fun row => row.count 1).getD z 0 = (g.getD z []).count 1 := by
  rw [List.getD_eq_getElem?_getD, List.getElem?_map, getD_eq_of_lt g z hz]
  rfl

theorem wallCount_set {g : Grid} {z : Nat} (hz : z < g.length) (r : List Nat) :
    wallCount (g.set z r) + (g.getD z []).count 1 = wallCount g + r.count 1 := by
  unfold wallCount
  rw [List.map_set]
  have h1 := sum_set_nat (g.map fun row => row.count 1) z (r.count 1) (by simpa using hz)
  rw [getD_map_count g z hz] at h1
  omega

theorem getDNat_eq_of_lt (row : List Nat) (x : Nat) (hx : x < row.length) :
    row[x]? = some (row.getD x 0) := by
  rw [List.getElem?_eq_getElem hx]
  congr 1
  rw [List.getD_eq_getElem?_getD, List.getElem?_eq_getElem hx]
  rfl

theorem count_setPad_le (row : List Nat) (x : Nat) :
    (setPad row x 0).count 1 ≤ row.count 1 := by
  unfold setPad
  by_cases h : x < row.length
  · rw [if_pos h]
    have h1 := count_set_of_getElem row x (row.getD x 0) (getDNat_eq_of_lt row x h) 0 1
    rw [if_neg (show ((0:Nat) = 1) → False by omega)] at h1
    omega
  · rw [if_neg h]
    simp [List.count_append, List.count_replicate]

theorem wallCount_writeCell_le {g g2 : Grid} {z x : Int} (h : writeCell g z x 0 = .ok g2) :
    wallCount g2 ≤ wallCount g := by
  unfold writeCell at h
  by_cases h1 : 0 ≤ z ∧ z.toNat < g.length
  · rw [if_pos h1] at h
    by_cases h2 : 0 ≤ x
    · rw [if_pos h2] at h
      injection h with h
      subst h
      have := wallCount_set h1.2 (setPad (g.getD z.toNat []) x.toNat 0)
      have := count_setPad_le (g.getD z.toNat []) x.toNat
      omega
    · rw [if_neg h2] at h
      injection h with h
      subst h
      exact Nat.le_refl _
  · rw [if_neg h1] at h
    cases h

theorem wallCount_writeCell_mark {g g2 : Grid} {x z : Int} (hcell : getCell g x z = some 1)
    (h : writeCell g z x 0 = .ok g2) : wallCount g2 + 1 = wallCount g := by
  obtain ⟨hx, hz, hzl, hxl, hval⟩ := getCell_expand hcell
  unfold writeCell at h
  rw [if_pos ⟨hz, hzl⟩, if_pos hx] at h
  injection h with h
  subst h
  have h1 := wallCount_set hzl (setPad (g.getD z.toNat []) x.toNat 0)
  have h2 := count_set_of_getElem (g.getD z.toNat []) x.toNat 1 hval 0 1
  rw [if_pos rfl, if_neg (show ((0:Nat) = 1) → False by omega)] at h2
  rw [setPad, if_pos hxl] at h1 ⊢
  omega

theorem writeCell_length {g g2 : Grid} {z x : Int} {v : Nat} (h : writeCell g z x v = .ok g2) :
    g2.length = g.length := by
  unfold writeCell at h
  by_cases h1 : 0 ≤ z ∧ z.toNat < g.length
  · rw [if_pos h1] at h
    by_cases h2 : 0 ≤ x
    · rw [if_pos h2] at h
      injection h with h
      subst h
      exact List.length_set _ _ _
    · rw [if_neg h2] at h
      injection h with h
      subst h
      rfl
  · rw [if_neg h1] at h
    cases h

/-! ### Length preservation through carving -/

theorem carveLoop_length {W H : Int}
    {recur : Grid → Int → Int → Nat → Except CarveErr (Grid × Nat)}
    (hrec : ∀ g x z k g2 k2, recur g x z k = .ok (g2, k2) → g2.length = g.length)
    (x z : Int) :
    ∀ (ds : List Dir) (g : Grid) (k : Nat) (g2 : Grid) (k2 : Nat),
      carveLoop W H recur x z ds g k = .ok (g2, k2) → g2.length = g.length
  | [], g, k, g2, k2 => by
    intro h
    rw [carveLoop] at h
    injection h with h
    cases h
    rfl
  | d :: ds, g, k, g2, k2 => by
    intro h
    rw [carveLoop] at h
    split_ifs at h with hadm
    · split at h
      · exact Except.noConfusion h
      · rename_i g1 hw
        split at h
        · exact Except.noConfusion h
        · rename_i g1' k1' hr
          have h3 := carveLoop_length hrec x z ds g1' k1' g2 k2 h
          rw [h3, hrec _ _ _ _ _ _ hr, writeCell_length hw]
    · exact carveLoop_length hrec x z ds g k g2 k2 h

theorem carvePassages_length (rand : Nat → Nat) (W H : Int) :
    ∀ (fuel : Nat) (g : Grid) (x z : Int) (k : Nat) (g2 : Grid) (k2 : Nat),
      carvePassages rand W H fuel g x z k = .ok (g2, k2) → g2.length = g.length
  | 0, g, x, z, k, g2, k2 => by
    intro h
    rw [carvePassages] at h
    exact Except.noConfusion h
  | fuel + 1, g, x, z, k, g2, k2 => by
    intro h
    rw [carvePassages] at h
    split at h
    · exact Except.noConfusion h
    · rename_i g1 hw
      have h2 := carveLoop_length
        (fun g x z k g2 k2 hh => carvePassages_length rand W H fuel g x z k g2 k2 hh)
        x z (shuffleArray rand k dirs4) g1 (k + 3) g2 k2 h
      rw [h2, writeCell_length hw]

/-! ### Fuel sufficiency: the carving recursion never exhausts its fuel -/

theorem dir_dxdz (d : Dir) :
    (d.dx = 0 ∧ d.dz = -2) ∨ (d.dx = 2 ∧ d.dz = 0) ∨
    (d.dx = 0 ∧ d.dz = 2) ∨ (d.dx = -2 ∧ d.dz = 0) := by
  cases d <;> simp [Dir.dx, Dir.dz]

theorem wallCount_pos {g : Grid} {x z : Int} (h : getCell g x z = some 1) :
    1 ≤ wallCount g := by
  obtain ⟨_, _, hzl, _, hval⟩ := getCell_expand h
  have hmem : (1 : Nat) ∈ g.getD z.toNat [] := List.getElem?_mem hval
  have hcount : 0 < (g.getD z.toNat []).count 1 := List.count_pos_iff.mpr hmem
  have hrow : (g.getD z.toNat []).count 1 ∈ g.map (fun row => row.count 1) :=
    List.mem_map_of_mem _ (List.getElem?_mem (getD_eq_of_lt g _ hzl))
  have := List.single_le_sum (l := g.map fun row => row.count 1) (fun x _ => Nat.zero_le x) _ hrow
  unfold wallCount
  omega

theorem carveLoop_fuel (rand : Nat → Nat) (W H : Int) (fuel : Nat)
    (hrec : ∀ (g : Grid) (x z : Int) (k : Nat), WF W H g → getCell g x z = some 1 →
      wallCount g ≤ fuel →
      ∃ g2 k2, carvePassages rand W H fuel g x z k = .ok (g2, k2) ∧ WF W H g2 ∧
        wallCount g2 + 1 ≤ wallCount g)
    (x z : Int) (hx : 0 ≤ x) (hxW : x < W) (hz : 0 ≤ z) (hzH : z < H) :
    ∀ (ds : List Dir) (g : Grid) (k : Nat), WF W H g → wallCount g ≤ fuel →
      ∃ g2 k2, carveLoop W H (carvePassages rand W H fuel) x z ds g k = .ok (g2, k2) ∧
        WF W H g2 ∧ wallCount g2 ≤ wallCount g
  | [], g, k => by
    intro hwf hwc
    exact ⟨g, k, by rw [carveLoop], hwf, Nat.le_refl _⟩
  | d :: ds, g, k => by
    intro hwf hwc
    by_cases hadm : 0 < x + d.dx ∧ x + d.dx < W - 1 ∧ 0 < z + d.dz ∧ z + d.dz < H - 1 ∧
        getCell g (x + d.dx) (z + d.dz) = some 1
    · obtain ⟨h1, h2, h3, h4, h5⟩ := hadm
      have hmidx : 0 ≤ x + d.dx / 2 ∧ x + d.dx / 2 < W := by
        rcases dir_dxdz d with ⟨ha, hb⟩ | ⟨ha, hb⟩ | ⟨ha, hb⟩ | ⟨ha, hb⟩ <;>
          rw [ha] <;> omega
      have hmidz : 0 ≤ z + d.dz / 2 ∧ z + d.dz / 2 < H := by
        rcases dir_dxdz d with ⟨ha, hb⟩ | ⟨ha, hb⟩ | ⟨ha, hb⟩ | ⟨ha, hb⟩ <;>
          rw [hb] <;> omega
      have hw := writeCell_eq_setCell hwf 0 hmidx.1 hmidx.2 hmidz.1 hmidz.2
      have hwf1 := WF_setCell hwf (x + d.dx / 2) 0 hmidz.1 hmidz.2
      have hcell1 : getCell (setCell g (z + d.dz / 2) (x + d.dx / 2) 0)
          (x + d.dx) (z + d.dz) = some 1 := by
        rw [getCell_setCell hwf 0 hmidx.1 hmidx.2 hmidz.1 hmidz.2,
          if_neg (by rcases dir_dxdz d with ⟨ha, hb⟩ | ⟨ha, hb⟩ | ⟨ha, hb⟩ | ⟨ha, hb⟩ <;>
            rw [ha, hb] <;> rintro ⟨hc1, hc2⟩ <;> omega)]
        exact h5
      have hwcle : wallCount (setCell g (z + d.dz / 2) (x + d.dx / 2) 0) ≤ wallCount g :=
        wallCount_writeCell_le hw
      obtain ⟨g2', k2', hreq, hwf2, hdec⟩ :=
        hrec _ (x + d.dx) (z + d.dz) k hwf1 hcell1 (by omega)
      obtain ⟨g2, k2, hleq, hwf3, hle⟩ := carveLoop_fuel rand W H fuel hrec x z hx hxW hz hzH
        ds g2' k2' hwf2 (by omega)
      refine ⟨g2, k2, ?_, hwf3, by omega⟩
      rw [carveLoop, if_pos ⟨h1, h2, h3, h4, h5⟩]
      split
      · rename_i hw2
        rw [hw] at hw2
        exact Except.noConfusion hw2
      · rename_i g1x hw2
        rw [hw] at hw2
        injection hw2 with hw2
        subst hw2
        split
        · rename_i hr2
          rw [hreq] at hr2
          exact Except.noConfusion hr2
        · rename_i g2x k2x hr2
          rw [hreq] at hr2
          injection hr2 with hr2
          injection hr2 with hra hrb
          subst hra
          subst hrb
          exact hleq
    · obtain ⟨g2, k2, hleq, hwf2, hle⟩ :=
        carveLoop_fuel rand W H fuel hrec x z hx hxW hz hzH ds g k hwf hwc
      refine ⟨g2, k2, ?_, hwf2, hle⟩
      rw [carveLoop, if_neg hadm]
      exact hleq

theorem carvePassages_fuel_ok (rand : Nat → Nat) (W H : Int) :
    ∀ (fuel : Nat) (g : Grid) (x z : Int) (k : Nat), WF W H g → getCell g x z = some 1 →
      wallCount g ≤ fuel →
      ∃ g2 k2, carvePassages rand W H fuel g x z k = .ok (g2, k2) ∧ WF W H g2 ∧
        wallCount g2 + 1 ≤ wallCount g
  | 0, g, x, z, k => by
    intro _ hcell hwc
    have := wallCount_pos hcell
    omega
  | fuel + 1, g, x, z, k => by
    intro hwf hcell hwc
    obtain ⟨hx, hxW, hz, hzH⟩ := getCell_some_bounds hwf hcell
    have hw := writeCell_eq_setCell hwf (x := x) (z := z) 0 hx hxW hz hzH
    have hwf1 := WF_setCell hwf x 0 hz hzH
    have hmark := wallCount_writeCell_mark hcell hw
    obtain ⟨g2, k2, hleq, hwf2, hle⟩ := carveLoop_fuel rand W H fuel
      (carvePassages_fuel_ok rand W H fuel) x z hx hxW hz hzH
      (shuffleArray rand k dirs4) (setCell g z x 0) (k + 3) hwf1 (by omega)
    refine ⟨g2, k2, ?_, hwf2, by omega⟩
    rw [carvePassages]
    split
    · rename_i hw2
      rw [hw] at hw2
      exact Except.noConfusion hw2
    · rename_i g1x hw2
      rw [hw] at hw2
      injection hw2 with hw2
      subst hw2
      exact hleq

/-! ### Stuck carving: no admissible direction leaves the grid unchanged -/

theorem carveLoop_stuck {W H : Int}
    {recur : Grid → Int → Int → Nat → Except CarveErr (Grid × Nat)} {x z : Int} :
    ∀ (ds : List Dir) (g : Grid) (k : Nat),
      (∀ d : Dir, ¬(0 < x + d.dx ∧ x + d.dx < W - 1 ∧ 0 < z + d.dz ∧ z + d.dz < H - 1 ∧
        getCell g (x + d.dx) (z + d.dz) = some 1)) →
      carveLoop W H recur x z ds g k = .ok (g, k)
  | [], g, k => by
    intro _
    rw [carveLoop]
  | d :: ds, g, k => by
    intro hstuck
    rw [carveLoop, if_neg (hstuck d)]
    exact carveLoop_stuck ds g k hstuck

/-! ### Characterizing a run of generate -/

theorem wallCount_mkGrid (W H : Int) :
    wallCount (List.replicate H.toNat (List.replicate W.toNat 1)) = H.toNat * W.toNat := by
  unfold wallCount
  rw [List.map_replicate, List.count_replicate, List.sum_replicate]
  simp

theorem generate_eq {m : MazeGenerator} {rand : Nat → Nat} {gc : Grid} {kc : Nat}
    (hcarve : carvePassages rand m.width m.height (m.width.toNat * m.height.toNat + 1)
      (List.replicate m.height.toNat (List.replicate m.width.toNat 1)) 1 1 0 = .ok (gc, kc))
    {g2 : Grid} (hw1 : writeCell gc 1 1 0 = .ok g2)
    {g3 : Grid} (hw2 : writeCell g2 (m.height - 2) (m.width - 2) 0 = .ok g3)
    {g4 : Grid} (hw3 : writeCell g3 (m.height - 2) (m.width - 2) 2 = .ok g4) :
    m.generate rand = .ok { m with grid := g4 } := by
  unfold MazeGenerator.generate
  split
  · rename_i e hc
    rw [hcarve] at hc
    exact Except.noConfusion hc
  · rename_i gcx kcx hc
    rw [hcarve] at hc
    injection hc with hc
    injection hc with hca hcb
    subst hca
    split
    · rename_i hc1
      rw [hw1] at hc1
      exact Except.noConfusion hc1
    · rename_i g2x hc1
      rw [hw1] at hc1
      injection hc1 with hc1
      subst hc1
      split
      · rename_i hc2
        rw [hw2] at hc2
        exact Except.noConfusion hc2
      · rename_i g3x hc2
        rw [hw2] at hc2
        injection hc2 with hc2
        subst hc2
        split
        · rename_i hc3
          rw [hw3] at hc3
          exact Except.noConfusion hc3
        · rename_i g4x hc3
          rw [hw3] at hc3
          injection hc3 with hc3
          subst hc3
          rfl

theorem generate_eq_err {m : MazeGenerator} {rand : Nat → Nat} {e : CarveErr}
    (hcarve : carvePassages rand m.width m.height (m.width.toNat * m.height.toNat + 1)
      (List.replicate m.height.toNat (List.replicate m.width.toNat 1)) 1 1 0 = .error e) :
    m.generate rand = .error e := by
  unfold MazeGenerator.generate
  split
  · rename_i e2 hc
    rw [hcarve] at hc
    injection hc with hc
    subst hc
    rfl
  · rename_i gcx kcx hc
    rw [hcarve] at hc
    exact Except.noConfusion hc

theorem generate_ok_inv {m : MazeGenerator} {rand : Nat → Nat} {m' : MazeGenerator}
    (h : m.generate rand = .ok m') :
    m'.width = m.width ∧ m'.height = m.height ∧
    ∃ gc kc g2 g3,
      carvePassages rand m.width m.height (m.width.toNat * m.height.toNat + 1)
        (List.replicate m.height.toNat (List.replicate m.width.toNat 1)) 1 1 0 = .ok (gc, kc) ∧
      writeCell gc 1 1 0 = .ok g2 ∧
      writeCell g2 (m.height - 2) (m.width - 2) 0 = .ok g3 ∧
      writeCell g3 (m.height - 2) (m.width - 2) 2 = .ok m'.grid := by
  unfold MazeGenerator.generate at h
  split at h
  · exact Except.noConfusion h
  · rename_i gc kc hc
    split at h
    · exact Except.noConfusion h
    · rename_i g2 hc1
      split at h
      · exact Except.noConfusion h
      · rename_i g3 hc2
        split at h
        · exact Except.noConfusion h
        · rename_i g4 hc3
          injection h with h
          subst h
          exact ⟨rfl, rfl, gc, kc, g2, g3, hc, hc1, hc2, hc3⟩

theorem generate_grid_length {m : MazeGenerator} {rand : Nat → Nat} {m' : MazeGenerator}
    (h : m.generate rand = .ok m') : m'.grid.length = m.height.toNat := by
  obtain ⟨_, _, gc, kc, g2, g3, hc, hw1, hw2, hw3⟩ := generate_ok_inv h
  rw [writeCell_length hw3, writeCell_length hw2, writeCell_length hw1,
    carvePassages_length rand m.width m.height _ _ 1 1 0 gc kc hc, List.length_replicate]

/-! ### Completion and fault behavior of generate -/

theorem generate_ok_of_big (rand : Nat → Nat) (m : MazeGenerator)
    (hW : 3 ≤ m.width) (hH : 3 ≤ m.height) :
    ∃ m', m.generate rand = .ok m' := by
  have hwf0 := WF_mkGrid m.width m.height
  have hcell : getCell (List.replicate m.height.toNat (List.replicate m.width.toNat 1))
      1 1 = some 1 := by
    rw [getCell_mkGrid, if_pos ⟨by omega, by omega, by omega, by omega⟩]
  have hwc : wallCount (List.replicate m.height.toNat (List.replicate m.width.toNat 1)) ≤
      m.width.toNat * m.height.toNat + 1 := by
    rw [wallCount_mkGrid, Nat.mul_comm]
    omega
  obtain ⟨gc, kc, hcarve, hwfc, _⟩ := carvePassages_fuel_ok rand m.width m.height
    (m.width.toNat * m.height.toNat + 1) _ 1 1 0 hwf0 hcell hwc
  have hw1 := writeCell_eq_setCell hwfc (x := 1) (z := 1) 0
    (by omega) (by omega) (by omega) (by omega)
  have hwf2 := WF_setCell hwfc (z := 1) 1 0 (by omega) (by omega)
  have hw2 := writeCell_eq_setCell hwf2 (x := m.width - 2) (z := m.height - 2) 0
    (by omega) (by omega) (by omega) (by omega)
  have hwf3 := WF_setCell hwf2 (z := m.height - 2) (m.width - 2) 0 (by omega) (by omega)
  have hw3 := writeCell_eq_setCell hwf3 (x := m.width - 2) (z := m.height - 2) 2
    (by omega) (by omega) (by omega) (by omega)
  exact ⟨_, generate_eq hcarve hw1 hw2 hw3⟩

theorem carvePassages_err_of_short (rand : Nat → Nat) (W H : Int) (fuel : Nat) (g : Grid)
    (x z : Int) (k : Nat) (hlen : ¬(0 ≤ z ∧ z.toNat < g.length)) :
    carvePassages rand W H (fuel + 1) g x z k = .error .typeError := by
  rw [carvePassages]
  split
  · rfl
  · rename_i g1 hw
    rw [writeCell, if_neg hlen] at hw
    exact Except.noConfusion hw

theorem generate_err_of_small (rand : Nat → Nat) (m : MazeGenerator) (hH : m.height ≤ 1) :
    m.generate rand = .error .typeError := by
  apply generate_eq_err
  apply carvePassages_err_of_short
  rw [List.length_replicate]
  omega

theorem writeCell_ok_of_len {g : Grid} {z x : Int} (v : Nat) (hz : 0 ≤ z)
    (hzl : z.toNat < g.length) (hx : 0 ≤ x) :
    writeCell g z x v = .ok (g.set z.toNat (setPad (g.getD z.toNat []) x.toNat v)) := by
  unfold writeCell
  rw [if_pos ⟨hz, hzl⟩, if_pos hx]

theorem writeCell_ok_neg {g : Grid} {z x : Int} (v : Nat) (hz : 0 ≤ z)
    (hzl : z.toNat < g.length) (hx : x < 0) :
    writeCell g z x v = .ok g := by
  unfold writeCell
  rw [if_pos ⟨hz, hzl⟩, if_neg (by omega)]

theorem carvePassages_stuck_eq (rand : Nat → Nat) (W H : Int) (fuel : Nat) {g g1 : Grid}
    (x z : Int) (k : Nat) (hw : writeCell g z x 0 = .ok g1)
    (hstuck : ∀ d : Dir, ¬(0 < x + d.dx ∧ x + d.dx < W - 1 ∧ 0 < z + d.dz ∧
      z + d.dz < H - 1 ∧ getCell g1 (x + d.dx) (z + d.dz) = some 1)) :
    carvePassages rand W H (fuel + 1) g x z k = .ok (g1, k + 3) := by
  rw [carvePassages]
  split
  · rename_i hw2
    rw [hw] at hw2
    exact Except.noConfusion hw2
  · rename_i g1x hw2
    rw [hw] at hw2
    injection hw2 with hw2
    subst hw2
    exact carveLoop_stuck _ _ _ hstuck

theorem writeCell_ok_total {g : Grid} (z x : Int) (v : Nat) (hz : 0 ≤ z)
    (hzl : z.toNat < g.length) : ∃ g2, writeCell g z x v = .ok g2 ∧ g2.length = g.length := by
  by_cases hx : 0 ≤ x
  · exact ⟨_, writeCell_ok_of_len v hz hzl hx, List.length_set _ _ _⟩
  · exact ⟨g, writeCell_ok_neg v hz hzl (by omega), rfl⟩

theorem generate_ok_of_smallW (rand : Nat → Nat) (m : MazeGenerator)
    (hW : m.width ≤ 1) (hH : 3 ≤ m.height) :
    ∃ m', m.generate rand = .ok m' := by
  have hlen0 : (List.replicate m.height.toNat (List.replicate m.width.toNat 1)).length =
      m.height.toNat := List.length_replicate _ _
  obtain ⟨g1, hw0, hlen1⟩ := writeCell_ok_total (g := List.replicate m.height.toNat
    (List.replicate m.width.toNat 1)) 1 1 0 (by omega) (by omega)
  have hcarve := carvePassages_stuck_eq rand m.width m.height
    (m.width.toNat * m.height.toNat) 1 1 0 hw0 (fun d hadm => by omega)
  obtain ⟨g2, hw1, hlen2⟩ := writeCell_ok_total (g := g1) 1 1 0 (by omega) (by omega)
  have hw2 := writeCell_ok_neg (g := g2) (z := m.height - 2) (x := m.width - 2) 0
    (by omega) (by omega) (by omega)
  have hw3 := writeCell_ok_neg (g := g2) (z := m.height - 2) (x := m.width - 2) 2
    (by omega) (by omega) (by omega)
  exact ⟨_, generate_eq hcarve hw1 hw2 hw3⟩

/-! ### Normalization facts -/

theorem normDim_odd (d : Int) : (normDim d) % 2 = 1 := by
  unfold normDim
  split_ifs with hd
  · omega
  · omega

theorem generate_3x3 (rand : Nat → Nat) (m : MazeGenerator)
    (hW : m.width = 3) (hH : m.height = 3) :
    m.generate rand = .ok { m with grid := [[1, 1, 1], [1, 2, 1], [1, 1, 1]] } := by
  obtain ⟨mw, mh, mg⟩ := m
  simp only at hW hH
  subst hW
  subst hH
  have hcarve := carvePassages_stuck_eq rand 3 3 9 1 1 0
    (by decide : writeCell (List.replicate (3 : Int).toNat (List.replicate (3 : Int).toNat 1))
      1 1 0 = .ok [[1, 1, 1], [1, 0, 1], [1, 1, 1]])
    (by intro d; cases d <;> decide)
  exact generate_eq hcarve
    (by decide : writeCell [[1, 1, 1], [1, 0, 1], [1, 1, 1]] 1 1 0 =
      .ok [[1, 1, 1], [1, 0, 1], [1, 1, 1]])
    (by decide : writeCell [[1, 1, 1], [1, 0, 1], [1, 1, 1]] (3 - 2) (3 - 2) 0 =
      .ok [[1, 1, 1], [1, 0, 1], [1, 1, 1]])
    (by decide : writeCell [[1, 1, 1], [1, 0, 1], [1, 1, 1]] (3 - 2) (3 - 2) 2 =
      .ok [[1, 1, 1], [1, 2, 1], [1, 1, 1]])

/-! ### Claim C6: dimension normalization -/

/-- C6: for every constructor input `(w, h)`, the stored width is `w+1`
when `w` is even and `w` when it is odd, likewise for the height;
`getWidth()` and `getHeight()` return these normalized values, and they
are always odd. -/
theorem C6_normalization (w h : Int) :
    (MazeGenerator.make w h).getWidth = (if w % 2 = 0 then w + 1 else w) ∧
    (MazeGenerator.make w h).getHeight = (if h % 2 = 0 then h + 1 else h) ∧
    Odd ((MazeGenerator.make w h).getWidth) ∧ Odd ((MazeGenerator.make w h).getHeight) := by
  refine ⟨rfl, rfl, ?_, ?_⟩
  · rw [Int.odd_iff]
    exact normDim_odd w
  · rw [Int.odd_iff]
    exact normDim_odd h

/-! ### Claim C7: out-of-bounds queries -/

/-- C7: for every instance and every out-of-bounds integer coordinate,
`isWall` returns `true` and `isExit` returns `false`. -/
theorem C7_oob_queries (m : MazeGenerator) (x z : Int)
    (h : x < 0 ∨ m.width ≤ x ∨ z < 0 ∨ m.height ≤ z) :
    m.isWall x z = .ok true ∧ m.isExit x z = .ok false := by
  unfold MazeGenerator.isWall MazeGenerator.isExit
  rw [if_pos h, if_pos h]
  exact ⟨rfl, rfl⟩

/-- C7 witness: concrete out-of-bounds queries on a 5×5 generator. -/
theorem C7_oob_queries_witness :
    (MazeGenerator.make 5 5).isWall 1000 1000 = .ok true ∧
    (MazeGenerator.make 5 5).isExit 1000 1000 = .ok false :=
  C7_oob_queries (MazeGenerator.make 5 5) 1000 1000 (by decide)

/-! ### Claim C9: the exit is never a wall -/

/-- C9: in every instance state and at every integer coordinate, if
`isExit` returns `true` then `isWall` returns `false`. -/
theorem C9_exit_walkable (m : MazeGenerator) (x z : Int)
    (h : m.isExit x z = .ok true) : m.isWall x z = .ok false := by
  unfold MazeGenerator.isExit at h
  unfold MazeGenerator.isWall
  by_cases hb : x < 0 ∨ m.width ≤ x ∨ z < 0 ∨ m.height ≤ z
  · rw [if_pos hb] at h
    injection h with h
    exact Bool.noConfusion h
  · rw [if_neg hb] at h
    rw [if_neg hb]
    split at h
    · exact Except.noConfusion h
    · rename_i row hz
      injection h with h
      rw [beq_iff_eq] at h
      rw [h]
      rfl

/-- C9 witness: the generated 5×5 demo maze reports its exit cell
`(3, 3)` as an exit and not as a wall. -/
theorem C9_exit_walkable_witness :
    demoMaze.isExit 3 3 = .ok true ∧ demoMaze.isWall 3 3 = .ok false :=
  ⟨by decide, C9_exit_walkable demoMaze 3 3 (by decide)⟩

/-! ### Claim C4: totality of the queries -/

/-- C4 counterexample: on a freshly constructed 5×5 generator, before
`generate()` is called, the in-bounds queries `isWall(1,1)` and
`isExit(1,1)` throw a TypeError (`this.grid` is `[]`, so `this.grid[1]`
is `undefined`) instead of returning a boolean. -/
theorem C4_counterexample :
    (MazeGenerator.make 5 5).isWall 1 1 = .error () ∧
    (MazeGenerator.make 5 5).isExit 1 1 = .error () := by decide

/-- C4 amended: after `generate()` has completed successfully, `isWall`
and `isExit` return a boolean on every integer coordinate.  (Before
`generate()`, only out-of-bounds queries are safe, as the
counterexample shows.) -/
theorem C4_total_after_generate (m : MazeGenerator) (rand : Nat → Nat)
    (m' : MazeGenerator) (h : m.generate rand = .ok m') (x z : Int) :
    (∃ b, m'.isWall x z = .ok b) ∧ (∃ b, m'.isExit x z = .ok b) := by
  have hlen : m'.grid.length = m.height.toNat := generate_grid_length h
  have hh : m'.height = m.height := (generate_ok_inv h).2.1
  unfold MazeGenerator.isWall MazeGenerator.isExit
  by_cases hb : x < 0 ∨ m'.width ≤ x ∨ z < 0 ∨ m'.height ≤ z
  · rw [if_pos hb, if_pos hb]
    exact ⟨⟨true, rfl⟩, ⟨false, rfl⟩⟩
  · rw [if_neg hb, if_neg hb]
    push_neg at hb
    obtain ⟨h1, h2, h3, h4⟩ := hb
    rcases hz : m'.grid[z.toNat]? with _ | row
    · have h5 : m'.grid.length ≤ z.toNat := by
        by_contra h6
        rw [List.getElem?_eq_getElem (by omega)] at hz
        exact Option.noConfusion hz
      omega
    · constructor
      · exact ⟨_, rfl⟩
      · exact ⟨_, rfl⟩

/-- C4 witness: the amended totality at the generated demo maze. -/
theorem C4_total_after_generate_witness :
    (∃ b, demoMaze.isWall 1 1 = .ok b) ∧ (∃ b, demoMaze.isExit 1 1 = .ok b) :=
  C4_total_after_generate (MazeGenerator.make 5 5) randZero demoMaze (by decide) 1 1

/-! ### Claim C5: degenerate dimensions -/

/-- C5 counterexample: the constructor input `(0, 0)` normalizes to a
1×1 grid, and `generate()` throws a TypeError (in `carvePassages(1,1)`
the row `this.grid[1]` is `undefined`) instead of completing. -/
theorem C5_counterexample :
    (MazeGenerator.make 0 0).generate randZero = .error CarveErr.typeError := by decide

/-- C5 amended: a degenerate normalized width (≤ 2) alone does not
fault — whenever the normalized height is at least 3, `generate()`
completes and returns a grid — but a degenerate normalized height (≤ 2,
e.g. inputs 0, 1 or negative) makes `generate()` throw a TypeError. -/
theorem C5_degenerate_behavior (w h : Int) (rand : Nat → Nat) :
    (normDim h ≤ 2 → (MazeGenerator.make w h).generate rand = .error CarveErr.typeError) ∧
    (3 ≤ normDim h → ∃ m', (MazeGenerator.make w h).generate rand = .ok m') := by
  constructor
  · intro hh
    apply generate_err_of_small
    have := normDim_odd h
    show normDim h ≤ 1
    omega
  · intro hh
    by_cases hw : 3 ≤ normDim w
    · exact generate_ok_of_big rand _ hw hh
    · apply generate_ok_of_smallW rand _ ?_ hh
      have := normDim_odd w
      show normDim w ≤ 1
      omega

/-- C5 witness: input (0,0) faults; input (0,5), whose normalized width
is the degenerate 1, completes. -/
theorem C5_degenerate_behavior_witness :
    (MazeGenerator.make 0 0).generate randZero = .error CarveErr.typeError ∧
    ∃ m', (MazeGenerator.make 0 5).generate randZero = .ok m' :=
  ⟨(C5_degenerate_behavior 0 0 randZero).1 (by decide),
   (C5_degenerate_behavior 0 5 randZero).2 (by decide)⟩

/-! ### Claim C10: the 3×3 degenerate maze -/

/-- C10: when both normalized dimensions are exactly 3, `getStart` and
`getEnd` denote the same coordinate `(1, 1)`, and after `generate()`
that single interior cell has kind Exit (value 2), not Passage: the
exit overwrite wins over the forced passage at the start. -/
theorem C10_three_by_three (w h : Int) (rand : Nat → Nat) (m' : MazeGenerator)
    (hW : normDim w = 3) (hH : normDim h = 3)
    (hgen : (MazeGenerator.make w h).generate rand = .ok m') :
    (MazeGenerator.make w h).getStart = (MazeGenerator.make w h).getEnd ∧
    m'.getStart = (1, 1) ∧ m'.getEnd = (1, 1) ∧
    getCell m'.grid 1 1 = some 2 ∧ m'.isExit 1 1 = .ok true := by
  have hW2 : (MazeGenerator.make w h).width = 3 := hW
  have hH2 : (MazeGenerator.make w h).height = 3 := hH
  rw [generate_3x3 rand _ hW2 hH2] at hgen
  injection hgen with hgen
  subst hgen
  refine ⟨?_, rfl, ?_, rfl, ?_⟩
  · unfold MazeGenerator.getStart MazeGenerator.getEnd
    rw [hW2, hH2]
    decide
  · unfold MazeGenerator.getEnd
    simp only [hW2, hH2]
    rfl
  · unfold MazeGenerator.isExit
    simp only [hW2, hH2]
    decide

/-- C10 witness: the 3×3 instance built from inputs (3, 3). -/
theorem C10_three_by_three_witness :
    (MazeGenerator.make 3 3).getStart = (MazeGenerator.make 3 3).getEnd ∧
    (MazeGenerator.mk 3 3 [[1, 1, 1], [1, 2, 1], [1, 1, 1]]).getStart = (1, 1) ∧
    (MazeGenerator.mk 3 3 [[1, 1, 1], [1, 2, 1], [1, 1, 1]]).getEnd = (1, 1) ∧
    getCell (MazeGenerator.mk 3 3 [[1, 1, 1], [1, 2, 1], [1, 1, 1]]).grid 1 1 = some 2 ∧
    (MazeGenerator.mk 3 3 [[1, 1, 1], [1, 2, 1], [1, 1, 1]]).isExit 1 1 = .ok true :=
  C10_three_by_three 3 3 randZero (MazeGenerator.mk 3 3 [[1, 1, 1], [1, 2, 1], [1, 1, 1]])
    (by decide) (by decide) (by decide)

/-! ### Board and reachability helpers -/

theorem mem_board {W H : Int} {p : Int × Int} :
    p ∈ board W H ↔ 0 ≤ p.1 ∧ p.1 < W ∧ 0 ≤ p.2 ∧ p.2 < H := by
  unfold board
  rw [Finset.mem_product, Finset.mem_Ico, Finset.mem_Ico]
  tauto

theorem mem_openSet {W H : Int} {g : Grid} {p : Int × Int} :
    p ∈ openSet W H g ↔ p ∈ board W H ∧ getCell g p.1 p.2 = some 0 :=
  Finset.mem_filter

theorem mem_edgeH {W H : Int} {g : Grid} {p : Int × Int} :
    p ∈ edgeH W H g ↔ p ∈ board W H ∧ getCell g p.1 p.2 = some 0 ∧
      getCell g (p.1 + 1) p.2 = some 0 :=
  Finset.mem_filter

theorem mem_edgeV {W H : Int} {g : Grid} {p : Int × Int} :
    p ∈ edgeV W H g ↔ p ∈ board W H ∧ getCell g p.1 p.2 = some 0 ∧
      getCell g p.1 (p.2 + 1) = some 0 :=
  Finset.mem_filter

theorem ReachOpen_mono {g g2 : Grid}
    (hmono : ∀ a b : Int, getCell g a b = some 0 → getCell g2 a b = some 0)
    {p : Int × Int} (h : ReachOpen g p) : ReachOpen g2 p := by
  refine Relation.ReflTransGen.mono ?_ h
  intro q r hs
  exact ⟨hmono _ _ hs.1, hs.2⟩

theorem openCell_bounds {W H : Int} {g : Grid} (hInv : CarveInv W H g) {a b : Int}
    (h : getCell g a b = some 0) : 0 ≤ a ∧ a < W ∧ 0 ≤ b ∧ b < H := by
  have := hInv.interior a b h
  omega

/-! ### The carving step preserves the spanning-tree invariant -/

theorem carve_step_horiz {W H : Int} {g : Grid} (hInv : CarveInv W H g) {x z o w : Int}
    (hx : x % 2 = 1) (hz : z % 2 = 1)
    (hc1 : 0 < x) (hc2 : x + 2 < W - 1) (hc3 : 0 < z) (hc4 : z < H - 1)
    (how : (o = x ∧ w = x + 2) ∨ (o = x + 2 ∧ w = x))
    (hopen : getCell g o z = some 0) (hwall : getCell g w z = some 1) :
    CarveInv W H (setCell (setCell g z (x + 1) 0) z w 0) := by
  have hwf := hInv.wf
  have hwfm : WF W H (setCell g z (x + 1) 0) := WF_setCell hwf (x + 1) 0 (by omega) (by omega)
  have hwf2 : WF W H (setCell (setCell g z (x + 1) 0) z w 0) := by
    refine WF_setCell hwfm w 0 (by omega) (by omega)
  have hg1 := getCell_setCell hwf (x := x + 1) (z := z) 0 (by omega) (by omega) (by omega) (by omega)
  have hg2 := getCell_setCell hwfm (x := w) (z := z) 0
    (by rcases how with ⟨ho, hw⟩ | ⟨ho, hw⟩ <;> omega)
    (by rcases how with ⟨ho, hw⟩ | ⟨ho, hw⟩ <;> omega) (by omega) (by omega)
  have hg : ∀ a b : Int, getCell (setCell (setCell g z (x + 1) 0) z w 0) a b =
      if (a = x + 1 ∨ a = w) ∧ b = z then some 0 else getCell g a b := by
    intro a b
    rw [hg2 a b, hg1 a b]
    by_cases d1 : a = w ∧ b = z
    · rw [if_pos d1, if_pos ⟨Or.inr d1.1, d1.2⟩]
    · by_cases d2 : a = x + 1 ∧ b = z
      · rw [if_neg d1, if_pos d2, if_pos ⟨Or.inl d2.1, d2.2⟩]
      · rw [if_neg d1, if_neg d2, if_neg (by tauto)]
  have hmono : ∀ a b : Int, getCell g a b = some 0 →
      getCell (setCell (setCell g z (x + 1) 0) z w 0) a b = some 0 := by
    intro a b hab
    rw [hg a b]
    split_ifs with hd
    · rfl
    · exact hab
  have hmwall : ¬ getCell g (x + 1) z = some 0 := by
    intro h0
    have hmid := hInv.midH (x + 1) z h0 (by omega)
    have e1 : x + 1 - 1 = x := by omega
    have e2 : x + 1 + 1 = x + 2 := by omega
    rw [e1, e2] at hmid
    rcases how with ⟨ho, hw⟩ | ⟨ho, hw⟩
    · rw [hw] at hwall
      rw [hmid.2] at hwall
      exact absurd hwall (by decide)
    · rw [hw] at hwall
      rw [hmid.1] at hwall
      exact absurd hwall (by decide)
  have hwwall : ¬ getCell g w z = some 0 := by
    intro h0
    rw [hwall] at h0
    exact absurd h0 (by decide)
  refine ⟨hwf2, ?_, ?_, ?_, ?_, ?_, ?_, ?_⟩
  · intro a b ha1 ha2 hb1 hb2
    rw [hg a b]
    split_ifs with hd
    · exact Or.inl rfl
    · exact hInv.vals a b ha1 ha2 hb1 hb2
  · intro a b hab
    rw [hg a b] at hab
    split_ifs at hab with hd
    · rcases hd with ⟨hd1 | hd1, hd2⟩ <;> rcases how with ⟨ho, hw⟩ | ⟨ho, hw⟩ <;> omega
    · exact hInv.interior a b hab
  · intro a b hab
    rw [hg a b] at hab
    split_ifs at hab with hd
    · rcases hd with ⟨hd1 | hd1, hd2⟩ <;> rcases how with ⟨ho, hw⟩ | ⟨ho, hw⟩ <;> omega
    · exact hInv.parity a b hab
  · intro a b hab heva
    rw [hg a b] at hab
    split_ifs at hab with hd
    · have ha : a = x + 1 := by
        rcases hd with ⟨hd1 | hd1, hd2⟩
        · exact hd1
        · exfalso
          rcases how with ⟨ho, hw⟩ | ⟨ho, hw⟩ <;> omega
      have hb : b = z := hd.2
      rw [ha, hb]
      have e1 : x + 1 - 1 = x := by omega
      have e2 : x + 1 + 1 = x + 2 := by omega
      rw [e1, e2]
      constructor
      · rcases how with ⟨ho, hw⟩ | ⟨ho, hw⟩
        · rw [ho] at hopen
          exact hmono _ _ hopen
        · rw [hg x z, if_pos ⟨Or.inr (by omega), rfl⟩]
      · rcases how with ⟨ho, hw⟩ | ⟨ho, hw⟩
        · rw [hg (x + 2) z, if_pos ⟨Or.inr (by omega), rfl⟩]
        · rw [ho] at hopen
          exact hmono _ _ hopen
    · have hm := hInv.midH a b hab heva
      exact ⟨hmono _ _ hm.1, hmono _ _ hm.2⟩
  · intro a b hab hevb
    rw [hg a b] at hab
    split_ifs at hab with hd
    · exfalso
      have := hd.2
      omega
    · have hm := hInv.midV a b hab hevb
      exact ⟨hmono _ _ hm.1, hmono _ _ hm.2⟩
  · intro a b hab
    rw [hg a b] at hab
    split_ifs at hab with hd
    · have hRo : ReachOpen (setCell (setCell g z (x + 1) 0) z w 0) (o, z) :=
        ReachOpen_mono hmono (hInv.reach o z hopen)
      have hOm : getCell (setCell (setCell g z (x + 1) 0) z w 0) (x + 1) z = some 0 := by
        rw [hg (x + 1) z, if_pos ⟨Or.inl rfl, rfl⟩]
      have hOw : getCell (setCell (setCell g z (x + 1) 0) z w 0) w z = some 0 := by
        rw [hg w z, if_pos ⟨Or.inr rfl, rfl⟩]
      have hRm : ReachOpen (setCell (setCell g z (x + 1) 0) z w 0) (x + 1, z) := by
        refine hRo.tail ⟨hOm, ?_⟩
        unfold adjacent
        rcases how with ⟨ho, hw⟩ | ⟨ho, hw⟩ <;> simp only [] <;> omega
      have hRw : ReachOpen (setCell (setCell g z (x + 1) 0) z w 0) (w, z) := by
        refine hRm.tail ⟨hOw, ?_⟩
        unfold adjacent
        rcases how with ⟨ho, hw⟩ | ⟨ho, hw⟩ <;> simp only [] <;> omega
      rcases hd with ⟨hd1 | hd1, hd2⟩
      · rw [show ((a, b) : Int × Int) = (x + 1, z) from Prod.ext hd1 hd2]
        exact hRm
      · rw [show ((a, b) : Int × Int) = (w, z) from Prod.ext hd1 hd2]
        exact hRw
    · exact ReachOpen_mono hmono (hInv.reach a b hab)
  · have hOpen2 : openSet W H (setCell (setCell g z (x + 1) 0) z w 0) =
        insert ((x + 1 : Int), z) (insert ((w : Int), z) (openSet W H g)) := by
      apply Finset.ext
      intro p
      rw [Finset.mem_insert, Finset.mem_insert, mem_openSet, mem_openSet, hg p.1 p.2]
      constructor
      · rintro ⟨hpb, hpv⟩
        split_ifs at hpv with hd
        · rcases hd with ⟨hd1 | hd1, hd2⟩
          · exact Or.inl (Prod.ext hd1 hd2)
          · exact Or.inr (Or.inl (Prod.ext hd1 hd2))
        · exact Or.inr (Or.inr ⟨hpb, hpv⟩)
      · rintro (rfl | rfl | ⟨hpb, hpv⟩)
        · refine ⟨mem_board.mpr ⟨by omega, by omega, by omega, by omega⟩, ?_⟩
          rw [if_pos ⟨Or.inl (by omega), by omega⟩]
        · refine ⟨mem_board.mpr ⟨?_, ?_, by omega, by omega⟩, ?_⟩
          · rcases how with ⟨ho, hw⟩ | ⟨ho, hw⟩ <;> omega
          · rcases how with ⟨ho, hw⟩ | ⟨ho, hw⟩ <;> omega
          · rw [if_pos ⟨Or.inr (by omega), by omega⟩]
        · refine ⟨hpb, ?_⟩
          split_ifs with hd
          · rfl
          · exact hpv
    have hnm1 : ((x + 1 : Int), z) ∉ insert ((w : Int), z) (openSet W H g) := by
      rw [Finset.mem_insert, mem_openSet]
      rintro (heq | ⟨hpb, hpv⟩)
      · injection heq with he1 he2
        rcases how with ⟨ho, hw⟩ | ⟨ho, hw⟩ <;> omega
      · exact hmwall hpv
    have hnm2 : ((w : Int), z) ∉ openSet W H g := by
      rw [mem_openSet]
      rintro ⟨hpb, hpv⟩
      exact hwwall hpv
    have hEH : edgeH W H (setCell (setCell g z (x + 1) 0) z w 0) =
        insert ((x : Int), z) (insert ((x + 1 : Int), z) (edgeH W H g)) := by
      apply Finset.ext
      intro p
      rw [Finset.mem_insert, Finset.mem_insert, mem_edgeH, mem_edgeH, hg p.1 p.2,
        hg (p.1 + 1) p.2]
      constructor
      · rintro ⟨hpb, hpv, hpv2⟩
        split_ifs at hpv with hd1 <;> split_ifs at hpv2 with hd2
        · rcases how with ⟨ho, hw⟩ | ⟨ho, hw⟩
          · refine Or.inr (Or.inl (Prod.ext ?_ hd1.2))
            rcases hd1 with ⟨he1 | he1, _⟩ <;> rcases hd2 with ⟨he2 | he2, _⟩ <;> omega
          · refine Or.inl (Prod.ext ?_ hd1.2)
            rcases hd1 with ⟨he1 | he1, _⟩ <;> rcases hd2 with ⟨he2 | he2, _⟩ <;> omega
        · rcases how with ⟨ho, hw⟩ | ⟨ho, hw⟩
          · rcases hd1 with ⟨he1 | he1, hez⟩
            · exact absurd ⟨Or.inr (by omega), hez⟩ hd2
            · exfalso
              have hmid := hInv.midH (p.1 + 1) p.2 hpv2 (by omega)
              have e3 : p.1 + 1 - 1 = p.1 := by omega
              rw [e3, he1, hez] at hmid
              exact hwwall hmid.1
          · rcases hd1 with ⟨he1 | he1, hez⟩
            · exact Or.inr (Or.inl (Prod.ext he1 hez))
            · exact absurd ⟨Or.inl (by omega), hez⟩ hd2
        · rcases how with ⟨ho, hw⟩ | ⟨ho, hw⟩
          · rcases hd2 with ⟨he2 | he2, hez⟩
            · exact Or.inl (Prod.ext (by omega) hez)
            · exfalso
              have e3 : p.1 = x + 1 := by omega
              rw [e3, hez] at hpv
              exact hmwall hpv
          · rcases hd2 with ⟨he2 | he2, hez⟩
            · exfalso
              have e3 : p.1 = x := by omega
              rw [hw] at hwwall
              rw [e3, hez] at hpv
              exact hwwall hpv
            · exfalso
              have hmid := hInv.midH p.1 p.2 hpv (by omega)
              have e3 : p.1 + 1 = x := by omega
              rw [hez, e3] at hmid
              rw [hw] at hwwall
              exact hwwall hmid.2
        · exact Or.inr (Or.inr ⟨hpb, hpv, hpv2⟩)
      · rintro (rfl | rfl | ⟨hpb, hv1, hv2⟩)
        · refine ⟨mem_board.mpr ⟨by omega, by omega, by omega, by omega⟩, ?_, ?_⟩
          · split_ifs with hd
            · rfl
            · rcases how with ⟨ho, hw⟩ | ⟨ho, hw⟩
              · rw [ho] at hopen
                exact hopen
              · exfalso
                exact hd ⟨Or.inr (by omega), rfl⟩
          · rw [if_pos ⟨Or.inl (by omega), rfl⟩]
        · refine ⟨mem_board.mpr ⟨by omega, by omega, by omega, by omega⟩, ?_, ?_⟩
          · rw [if_pos ⟨Or.inl (by omega), rfl⟩]
          · split_ifs with hd
            · rfl
            · rcases how with ⟨ho, hw⟩ | ⟨ho, hw⟩
              · exfalso
                exact hd ⟨Or.inr (by omega), rfl⟩
              · rw [ho] at hopen
                have e4 : getCell g (x + 1 + 1) z = some 0 := by
                  rw [show x + 1 + 1 = x + 2 by omega]
                  exact hopen
                exact e4
        · refine ⟨hpb, ?_, ?_⟩
          · split_ifs with hd
            · rfl
            · exact hv1
          · split_ifs with hd
            · rfl
            · exact hv2
    have hnmE1 : ((x : Int), z) ∉ insert ((x + 1 : Int), z) (edgeH W H g) := by
      rw [Finset.mem_insert, mem_edgeH]
      rintro (heq | ⟨hpb, hv1, hv2⟩)
      · injection heq with he1 he2
        omega
      · exact hmwall hv2
    have hnmE2 : ((x + 1 : Int), z) ∉ edgeH W H g := by
      rw [mem_edgeH]
      rintro ⟨hpb, hv1, hv2⟩
      exact hmwall hv1
    have hEV : edgeV W H (setCell (setCell g z (x + 1) 0) z w 0) = edgeV W H g := by
      apply Finset.ext
      intro p
      rw [mem_edgeV, mem_edgeV, hg p.1 p.2, hg p.1 (p.2 + 1)]
      constructor
      · rintro ⟨hpb, hpv, hpv2⟩
        refine ⟨hpb, ?_, ?_⟩
        · split_ifs at hpv with hd1
          · exfalso
            split_ifs at hpv2 with hd2
            · omega
            · rcases hd1 with ⟨he1 | he1, hez⟩
              · have := hInv.parity p.1 (p.2 + 1) hpv2
                omega
              · have hmid := hInv.midV p.1 (p.2 + 1) hpv2 (by omega)
                have e3 : p.2 + 1 - 1 = p.2 := by omega
                rw [e3] at hmid
                rw [he1] at hmid
                rw [hez] at hmid
                rw [hmid.1] at hwall
                exact absurd hwall (by decide)
          · exact hpv
        · split_ifs at hpv2 with hd2
          · exfalso
            split_ifs at hpv with hd1
            · omega
            · rcases hd2 with ⟨he2 | he2, hez⟩
              · have := hInv.parity p.1 p.2 hpv
                omega
              · have hmid := hInv.midV p.1 p.2 hpv (by omega)
                rw [he2] at hmid
                have e3 : p.2 + 1 = z := hez
                rw [e3] at hmid
                rw [hmid.2] at hwall
                exact absurd hwall (by decide)
          · exact hpv2
      · rintro ⟨hpb, hv1, hv2⟩
        refine ⟨hpb, ?_, ?_⟩
        · split_ifs with hd
          · rfl
          · exact hv1
        · split_ifs with hd
          · rfl
          · exact hv2
    rw [hOpen2, hEH, hEV, Finset.card_insert_of_not_mem hnm1,
      Finset.card_insert_of_not_mem hnm2, Finset.card_insert_of_not_mem hnmE1,
      Finset.card_insert_of_not_mem hnmE2]
    have := hInv.card
    omega

theorem carve_step_vert {W H : Int} {g : Grid} (hInv : CarveInv W H g) {x z o w : Int}
    (hx : x % 2 = 1) (hz : z % 2 = 1)
    (hc1 : 0 < z) (hc2 : z + 2 < H - 1) (hc3 : 0 < x) (hc4 : x < W - 1)
    (how : (o = z ∧ w = z + 2) ∨ (o = z + 2 ∧ w = z))
    (hopen : getCell g x o = some 0) (hwall : getCell g x w = some 1) :
    CarveInv W H (setCell (setCell g (z + 1) x 0) w x 0) := by
  have hwf := hInv.wf
  have hwfm : WF W H (setCell g (z + 1) x 0) := WF_setCell hwf x 0 (by omega) (by omega)
  have hwf2 : WF W H (setCell (setCell g (z + 1) x 0) w x 0) := by
    refine WF_setCell hwfm x 0 ?_ ?_ <;> rcases how with ⟨ho, hw⟩ | ⟨ho, hw⟩ <;> omega
  have hg1 := getCell_setCell hwf (x := x) (z := z + 1) 0 (by omega) (by omega) (by omega)
    (by omega)
  have hg2 := getCell_setCell hwfm (x := x) (z := w) 0 (by omega) (by omega)
    (by rcases how with ⟨ho, hw⟩ | ⟨ho, hw⟩ <;> omega)
    (by rcases how with ⟨ho, hw⟩ | ⟨ho, hw⟩ <;> omega)
  have hg : ∀ a b : Int, getCell (setCell (setCell g (z + 1) x 0) w x 0) a b =
      if a = x ∧ (b = z + 1 ∨ b = w) then some 0 else getCell g a b := by
    intro a b
    rw [hg2 a b, hg1 a b]
    by_cases d1 : a = x ∧ b = w
    · rw [if_pos d1, if_pos ⟨d1.1, Or.inr d1.2⟩]
    · by_cases d2 : a = x ∧ b = z + 1
      · rw [if_neg d1, if_pos d2, if_pos ⟨d2.1, Or.inl d2.2⟩]
      · rw [if_neg d1, if_neg d2, if_neg (by tauto)]
  have hmono : ∀ a b : Int, getCell g a b = some 0 →
      getCell (setCell (setCell g (z + 1) x 0) w x 0) a b = some 0 := by
    intro a b hab
    rw [hg a b]
    split_ifs with hd
    · rfl
    · exact hab
  have hmwall : ¬ getCell g x (z + 1) = some 0 := by
    intro h0
    have hmid := hInv.midV x (z + 1) h0 (by omega)
    have e1 : z + 1 - 1 = z := by omega
    have e2 : z + 1 + 1 = z + 2 := by omega
    rw [e1, e2] at hmid
    rcases how with ⟨ho, hw⟩ | ⟨ho, hw⟩
    · rw [hw] at hwall
      rw [hmid.2] at hwall
      exact absurd hwall (by decide)
    · rw [hw] at hwall
      rw [hmid.1] at hwall
      exact absurd hwall (by decide)
  have hwwall : ¬ getCell g x w = some 0 := by
    intro h0
    rw [hwall] at h0
    exact absurd h0 (by decide)
  refine ⟨hwf2, ?_, ?_, ?_, ?_, ?_, ?_, ?_⟩
  · intro a b ha1 ha2 hb1 hb2
    rw [hg a b]
    split_ifs with hd
    · exact Or.inl rfl
    · exact hInv.vals a b ha1 ha2 hb1 hb2
  · intro a b hab
    rw [hg a b] at hab
    split_ifs at hab with hd
    · rcases hd with ⟨hd1, hd2 | hd2⟩ <;> rcases how with ⟨ho, hw⟩ | ⟨ho, hw⟩ <;> omega
    · exact hInv.interior a b hab
  · intro a b hab
    rw [hg a b] at hab
    split_ifs at hab with hd
    · rcases hd with ⟨hd1, hd2 | hd2⟩ <;> rcases how with ⟨ho, hw⟩ | ⟨ho, hw⟩ <;> omega
    · exact hInv.parity a b hab
  · intro a b hab heva
    rw [hg a b] at hab
    split_ifs at hab with hd
    · exfalso
      have := hd.1
      omega
    · have hm := hInv.midH a b hab heva
      exact ⟨hmono _ _ hm.1, hmono _ _ hm.2⟩
  · intro a b hab hevb
    rw [hg a b] at hab
    split_ifs at hab with hd
    · have hb : b = z + 1 := by
        rcases hd with ⟨hd1, hd2 | hd2⟩
        · exact hd2
        · exfalso
          rcases how with ⟨ho, hw⟩ | ⟨ho, hw⟩ <;> omega
      have ha : a = x := hd.1
      rw [ha, hb]
      have e1 : z + 1 - 1 = z := by omega
      have e2 : z + 1 + 1 = z + 2 := by omega
      rw [e1, e2]
      constructor
      · rcases how with ⟨ho, hw⟩ | ⟨ho, hw⟩
        · rw [ho] at hopen
          exact hmono _ _ hopen
        · rw [hg x z, if_pos ⟨rfl, Or.inr (by omega)⟩]
      · rcases how with ⟨ho, hw⟩ | ⟨ho, hw⟩
        · rw [hg x (z + 2), if_pos ⟨rfl, Or.inr (by omega)⟩]
        · rw [ho] at hopen
          exact hmono _ _ hopen
    · have hm := hInv.midV a b hab hevb
      exact ⟨hmono _ _ hm.1, hmono _ _ hm.2⟩
  · intro a b hab
    rw [hg a b] at hab
    split_ifs at hab with hd
    · have hRo : ReachOpen (setCell (setCell g (z + 1) x 0) w x 0) (x, o) :=
        ReachOpen_mono hmono (hInv.reach x o hopen)
      have hOm : getCell (setCell (setCell g (z + 1) x 0) w x 0) x (z + 1) = some 0 := by
        rw [hg x (z + 1), if_pos ⟨rfl, Or.inl rfl⟩]
      have hOw : getCell (setCell (setCell g (z + 1) x 0) w x 0) x w = some 0 := by
        rw [hg x w, if_pos ⟨rfl, Or.inr rfl⟩]
      have hRm : ReachOpen (setCell (setCell g (z + 1) x 0) w x 0) (x, z + 1) := by
        refine hRo.tail ⟨hOm, ?_⟩
        unfold adjacent
        rcases how with ⟨ho, hw⟩ | ⟨ho, hw⟩ <;> simp only [] <;> omega
      have hRw : ReachOpen (setCell (setCell g (z + 1) x 0) w x 0) (x, w) := by
        refine hRm.tail ⟨hOw, ?_⟩
        unfold adjacent
        rcases how with ⟨ho, hw⟩ | ⟨ho, hw⟩ <;> simp only [] <;> omega
      rcases hd with ⟨hd1, hd2 | hd2⟩
      · rw [show ((a, b) : Int × Int) = (x, z + 1) from Prod.ext hd1 hd2]
        exact hRm
      · rw [show ((a, b) : Int × Int) = (x, w) from Prod.ext hd1 hd2]
        exact hRw
    · exact ReachOpen_mono hmono (hInv.reach a b hab)
  · have hOpen2 : openSet W H (setCell (setCell g (z + 1) x 0) w x 0) =
        insert ((x : Int), z + 1) (insert ((x : Int), w) (openSet W H g)) := by
      apply Finset.ext
      intro p
      rw [Finset.mem_insert, Finset.mem_insert, mem_openSet, mem_openSet, hg p.1 p.2]
      constructor
      · rintro ⟨hpb, hpv⟩
        split_ifs at hpv with hd
        · rcases hd with ⟨hd1, hd2 | hd2⟩
          · exact Or.inl (Prod.ext hd1 hd2)
          · exact Or.inr (Or.inl (Prod.ext hd1 hd2))
        · exact Or.inr (Or.inr ⟨hpb, hpv⟩)
      · rintro (rfl | rfl | ⟨hpb, hpv⟩)
        · refine ⟨mem_board.mpr ⟨by omega, by omega, by omega, by omega⟩, ?_⟩
          rw [if_pos ⟨by omega, Or.inl (by omega)⟩]
        · refine ⟨mem_board.mpr ⟨by omega, by omega, ?_, ?_⟩, ?_⟩
          · rcases how with ⟨ho, hw⟩ | ⟨ho, hw⟩ <;> omega
          · rcases how with ⟨ho, hw⟩ | ⟨ho, hw⟩ <;> omega
          · rw [if_pos ⟨by omega, Or.inr (by omega)⟩]
        · refine ⟨hpb, ?_⟩
          split_ifs with hd
          · rfl
          · exact hpv
    have hnm1 : ((x : Int), z + 1) ∉ insert ((x : Int), w) (openSet W H g) := by
      rw [Finset.mem_insert, mem_openSet]
      rintro (heq | ⟨hpb, hpv⟩)
      · injection heq with he1 he2
        rcases how with ⟨ho, hw⟩ | ⟨ho, hw⟩ <;> omega
      · exact hmwall hpv
    have hnm2 : ((x : Int), w) ∉ openSet W H g := by
      rw [mem_openSet]
      rintro ⟨hpb, hpv⟩
      exact hwwall hpv
    have hEV : edgeV W H (setCell (setCell g (z + 1) x 0) w x 0) =
        insert ((x : Int), z) (insert ((x : Int), z + 1) (edgeV W H g)) := by
      apply Finset.ext
      intro p
      rw [Finset.mem_insert, Finset.mem_insert, mem_edgeV, mem_edgeV, hg p.1 p.2,
        hg p.1 (p.2 + 1)]
      constructor
      · rintro ⟨hpb, hpv, hpv2⟩
        split_ifs at hpv with hd1 <;> split_ifs at hpv2 with hd2
        · rcases how with ⟨ho, hw⟩ | ⟨ho, hw⟩
          · refine Or.inr (Or.inl (Prod.ext hd1.1 ?_))
            rcases hd1 with ⟨_, he1 | he1⟩ <;> rcases hd2 with ⟨_, he2 | he2⟩ <;> omega
          · refine Or.inl (Prod.ext hd1.1 ?_)
            rcases hd1 with ⟨_, he1 | he1⟩ <;> rcases hd2 with ⟨_, he2 | he2⟩ <;> omega
        · rcases how with ⟨ho, hw⟩ | ⟨ho, hw⟩
          · rcases hd1 with ⟨hex, he1 | he1⟩
            · exact absurd ⟨hex, Or.inr (by omega)⟩ hd2
            · exfalso
              have hmid := hInv.midV p.1 (p.2 + 1) hpv2 (by omega)
              have e3 : p.2 + 1 - 1 = p.2 := by omega
              rw [e3, hex, he1] at hmid
              exact hwwall hmid.1
          · rcases hd1 with ⟨hex, he1 | he1⟩
            · exact Or.inr (Or.inl (Prod.ext hex he1))
            · exact absurd ⟨hex, Or.inl (by omega)⟩ hd2
        · rcases how with ⟨ho, hw⟩ | ⟨ho, hw⟩
          · rcases hd2 with ⟨hex, he2 | he2⟩
            · exact Or.inl (Prod.ext hex (by omega))
            · exfalso
              have e3 : p.2 = z + 1 := by omega
              rw [hex, e3] at hpv
              exact hmwall hpv
          · rcases hd2 with ⟨hex, he2 | he2⟩
            · exfalso
              have e3 : p.2 = z := by omega
              rw [hw] at hwwall
              rw [hex, e3] at hpv
              exact hwwall hpv
            · exfalso
              have hmid := hInv.midV p.1 p.2 hpv (by omega)
              have e3 : p.2 + 1 = z := by omega
              rw [hex, e3] at hmid
              rw [hw] at hwwall
              exact hwwall hmid.2
        · exact Or.inr (Or.inr ⟨hpb, hpv, hpv2⟩)
      · rintro (rfl | rfl | ⟨hpb, hv1, hv2⟩)
        · refine ⟨mem_board.mpr ⟨by omega, by omega, by omega, by omega⟩, ?_, ?_⟩
          · split_ifs with hd
            · rfl
            · rcases how with ⟨ho, hw⟩ | ⟨ho, hw⟩
              · rw [ho] at hopen
                exact hopen
              · exfalso
                exact hd ⟨by omega, Or.inr (by omega)⟩
          · rw [if_pos ⟨by omega, Or.inl (by omega)⟩]
        · refine ⟨mem_board.mpr ⟨by omega, by omega, by omega, by omega⟩, ?_, ?_⟩
          · rw [if_pos ⟨by omega, Or.inl (by omega)⟩]
          · split_ifs with hd
            · rfl
            · rcases how with ⟨ho, hw⟩ | ⟨ho, hw⟩
              · exfalso
                exact hd ⟨by omega, Or.inr (by omega)⟩
              · rw [ho] at hopen
                have e4 : getCell g x (z + 1 + 1) = some 0 := by
                  rw [show z + 1 + 1 = z + 2 by omega]
                  exact hopen
                exact e4
        · refine ⟨hpb, ?_, ?_⟩
          · split_ifs with hd
            · rfl
            · exact hv1
          · split_ifs with hd
            · rfl
            · exact hv2
    have hnmE1 : ((x : Int), z) ∉ insert ((x : Int), z + 1) (edgeV W H g) := by
      rw [Finset.mem_insert, mem_edgeV]
      rintro (heq | ⟨hpb, hv1, hv2⟩)
      · injection heq with he1 he2
        omega
      · exact hmwall hv2
    have hnmE2 : ((x : Int), z + 1) ∉ edgeV W H g := by
      rw [mem_edgeV]
      rintro ⟨hpb, hv1, hv2⟩
      exact hmwall hv1
    have hEH : edgeH W H (setCell (setCell g (z + 1) x 0) w x 0) = edgeH W H g := by
      apply Finset.ext
      intro p
      rw [mem_edgeH, mem_edgeH, hg p.1 p.2, hg (p.1 + 1) p.2]
      constructor
      · rintro ⟨hpb, hpv, hpv2⟩
        refine ⟨hpb, ?_, ?_⟩
        · split_ifs at hpv with hd1
          · exfalso
            split_ifs at hpv2 with hd2
            · omega
            · rcases hd1 with ⟨hex, he1 | he1⟩
              · have := hInv.parity (p.1 + 1) p.2 hpv2
                omega
              · have hmid := hInv.midH (p.1 + 1) p.2 hpv2 (by omega)
                have e3 : p.1 + 1 - 1 = p.1 := by omega
                rw [e3, hex, he1] at hmid
                rw [hmid.1] at hwall
                exact absurd hwall (by decide)
          · exact hpv
        · split_ifs at hpv2 with hd2
          · exfalso
            split_ifs at hpv with hd1
            · omega
            · rcases hd2 with ⟨hex, he2 | he2⟩
              · have := hInv.parity p.1 p.2 hpv
                omega
              · have hmid := hInv.midH p.1 p.2 hpv (by omega)
                rw [he2] at hmid
                have e3 : p.1 + 1 = x := hex
                rw [e3] at hmid
                rw [hmid.2] at hwall
                exact absurd hwall (by decide)
          · exact hpv2
      · rintro ⟨hpb, hv1, hv2⟩
        refine ⟨hpb, ?_, ?_⟩
        · split_ifs with hd
          · rfl
          · exact hv1
        · split_ifs with hd
          · rfl
          · exact hv2
    rw [hOpen2, hEV, hEH, Finset.card_insert_of_not_mem hnm1,
      Finset.card_insert_of_not_mem hnm2, Finset.card_insert_of_not_mem hnmE1,
      Finset.card_insert_of_not_mem hnmE2]
    have := hInv.card
    omega

/-! ### Small helpers for the master invariant induction -/

theorem setCell0_keeps {W H : Int} {g : Grid} (hwf : WF W H g) {x z : Int}
    (hx : 0 ≤ x) (hxW : x < W) (hz : 0 ≤ z) (hzH : z < H) {a b : Int}
    (h : getCell g a b = some 0) : getCell (setCell g z x 0) a b = some 0 := by
  rw [getCell_setCell hwf 0 hx hxW hz hzH a b]
  split_ifs with hd
  · rfl
  · exact h

theorem setCell0_changes {W H : Int} {g : Grid} (hwf : WF W H g) {x z : Int}
    (hx : 0 ≤ x) (hxW : x < W) (hz : 0 ≤ z) (hzH : z < H) (a b : Int) :
    getCell (setCell g z x 0) a b = getCell g a b ∨ getCell (setCell g z x 0) a b = some 0 := by
  rw [getCell_setCell hwf 0 hx hxW hz hzH a b]
  split_ifs with hd
  · exact Or.inr rfl
  · exact Or.inl rfl

theorem roomDone_mono {W H : Int} {g g2 : Grid}
    (hmono : ∀ a b : Int, getCell g a b = some 0 → getCell g2 a b = some 0)
    {a b : Int} (h : roomDone W H g a b) : roomDone W H g2 a b := by
  intro d hb1 hb2 hb3 hb4
  exact hmono _ _ (h d hb1 hb2 hb3 hb4)

theorem mem_dirs4 (d : Dir) : d ∈ dirs4 := by
  cases d <;> simp [dirs4]

/-! ### The master carving invariant -/

theorem carveLoop_inv {W H : Int}
    {recur : Grid → Int → Int → Nat → Except CarveErr (Grid × Nat)}
    (hrec : CarveSpec W H recur) (x z : Int)
    (hx : x % 2 = 1) (hz : z % 2 = 1)
    (hx1 : 0 < x) (hx2 : x < W - 1) (hz1 : 0 < z) (hz2 : z < H - 1) :
    ∀ (ds : List Dir) (g : Grid) (k : Nat) (g2 : Grid) (k2 : Nat),
      CarveInv W H g → getCell g x z = some 0 →
      (∀ d : Dir, d ∉ ds → 0 < x + d.dx → x + d.dx < W - 1 → 0 < z + d.dz →
        z + d.dz < H - 1 → getCell g (x + d.dx) (z + d.dz) = some 0) →
      carveLoop W H recur x z ds g k = .ok (g2, k2) →
      CarveInv W H g2 ∧
      (∀ a b : Int, getCell g a b = some 0 → getCell g2 a b = some 0) ∧
      (∀ a b : Int, getCell g2 a b = getCell g a b ∨ getCell g2 a b = some 0) ∧
      (∀ a b : Int, a % 2 = 1 → b % 2 = 1 → getCell g a b = some 1 →
        getCell g2 a b = some 0 → roomDone W H g2 a b) ∧
      (∀ d : Dir, 0 < x + d.dx → x + d.dx < W - 1 → 0 < z + d.dz → z + d.dz < H - 1 →
        getCell g2 (x + d.dx) (z + d.dz) = some 0)
  | [], g, k, g2, k2 => by
    intro hInv hcur hdone hrun
    rw [carveLoop] at hrun
    injection hrun with hrun
    injection hrun with hga hkb
    subst hga
    refine ⟨hInv, fun a b h => h, fun a b => Or.inl rfl, ?_, ?_⟩
    · intro a b _ _ h1 h0
      rw [h1] at h0
      exact absurd h0 (by decide)
    · intro e hb1 hb2 hb3 hb4
      exact hdone e (List.not_mem_nil e) hb1 hb2 hb3 hb4
  | d :: ds, g, k, g2, k2 => by
    intro hInv hcur hdone hrun
    rw [carveLoop] at hrun
    split_ifs at hrun with hadm
    · obtain ⟨h1, h2, h3, h4, h5⟩ := hadm
      have hmb : 0 ≤ x + d.dx / 2 ∧ x + d.dx / 2 < W ∧ 0 ≤ z + d.dz / 2 ∧ z + d.dz / 2 < H := by
        rcases dir_dxdz d with ⟨hdx, hdz⟩ | ⟨hdx, hdz⟩ | ⟨hdx, hdz⟩ | ⟨hdx, hdz⟩ <;> omega
      have hw := writeCell_eq_setCell hInv.wf (x := x + d.dx / 2) (z := z + d.dz / 2) 0
        hmb.1 hmb.2.1 hmb.2.2.1 hmb.2.2.2
      have hwfg1 : WF W H (setCell g (z + d.dz / 2) (x + d.dx / 2) 0) :=
        WF_setCell hInv.wf _ 0 hmb.2.2.1 hmb.2.2.2
      have hmidne : ¬(x + d.dx = x + d.dx / 2 ∧ z + d.dz = z + d.dz / 2) := by
        rcases dir_dxdz d with ⟨hdx, hdz⟩ | ⟨hdx, hdz⟩ | ⟨hdx, hdz⟩ | ⟨hdx, hdz⟩ <;>
          rintro ⟨ha, hb⟩ <;> omega
      have hcell1 : getCell (setCell g (z + d.dz / 2) (x + d.dx / 2) 0)
          (x + d.dx) (z + d.dz) = some 1 := by
        rw [getCell_setCell hInv.wf 0 hmb.1 hmb.2.1 hmb.2.2.1 hmb.2.2.2, if_neg hmidne]
        exact h5
      have hstep : CarveInv W H (setCell (setCell g (z + d.dz / 2) (x + d.dx / 2) 0)
          (z + d.dz) (x + d.dx) 0) := by
        rcases dir_dxdz d with ⟨hdx, hdz⟩ | ⟨hdx, hdz⟩ | ⟨hdx, hdz⟩ | ⟨hdx, hdz⟩
        · have h5x := h5
          rw [show x + d.dx = x by omega, show z + d.dz = z - 2 by omega] at h5x
          rw [show z + d.dz / 2 = z - 1 by omega, show x + d.dx / 2 = x by omega,
            show z + d.dz = z - 2 by omega, show x + d.dx = x by omega]
          have hst := carve_step_vert hInv (z := z - 2) hx (by omega) (by omega) (by omega)
            hx1 hx2 (Or.inr ⟨by omega, rfl⟩) hcur h5x
          rw [show z - 2 + 1 = z - 1 by omega] at hst
          exact hst
        · have h5x := h5
          rw [show x + d.dx = x + 2 by omega, show z + d.dz = z by omega] at h5x
          rw [show z + d.dz / 2 = z by omega, show x + d.dx / 2 = x + 1 by omega,
            show z + d.dz = z by omega, show x + d.dx = x + 2 by omega]
          exact carve_step_horiz hInv hx hz hx1 (by omega) hz1 hz2 (Or.inl ⟨rfl, rfl⟩)
            hcur h5x
        · have h5x := h5
          rw [show x + d.dx = x by omega, show z + d.dz = z + 2 by omega] at h5x
          rw [show z + d.dz / 2 = z + 1 by omega, show x + d.dx / 2 = x by omega,
            show z + d.dz = z + 2 by omega, show x + d.dx = x by omega]
          exact carve_step_vert hInv hx hz hz1 (by omega) hx1 hx2 (Or.inl ⟨rfl, rfl⟩)
            hcur h5x
        · have h5x := h5
          rw [show x + d.dx = x - 2 by omega, show z + d.dz = z by omega] at h5x
          rw [show z + d.dz / 2 = z by omega, show x + d.dx / 2 = x - 1 by omega,
            show z + d.dz = z by omega, show x + d.dx = x - 2 by omega]
          have hst := carve_step_horiz hInv (x := x - 2) (by omega) hz (by omega) (by omega)
            hz1 hz2 (Or.inr ⟨by omega, rfl⟩) hcur h5x
          rw [show x - 2 + 1 = x - 1 by omega] at hst
          exact hst
      split at hrun
      · rename_i hw2
        rw [hw] at hw2
        exact Except.noConfusion hw2
      · rename_i gmx hw2
        rw [hw] at hw2
        injection hw2 with hw2
        subst hw2
        split at hrun
        · exact Except.noConfusion hrun
        · rename_i g2x k2x hr
          have hparx : (x + d.dx) % 2 = 1 := by
            rcases dir_dxdz d with ⟨hdx, hdz⟩ | ⟨hdx, hdz⟩ | ⟨hdx, hdz⟩ | ⟨hdx, hdz⟩ <;> omega
          have hparz : (z + d.dz) % 2 = 1 := by
            rcases dir_dxdz d with ⟨hdx, hdz⟩ | ⟨hdx, hdz⟩ | ⟨hdx, hdz⟩ | ⟨hdx, hdz⟩ <;> omega
          obtain ⟨hInv2, hmono2, hchanges2, hdnew2⟩ :=
            hrec _ (x + d.dx) (z + d.dz) k g2x k2x hparx hparz h1 h2 h3 h4 hcell1 hwfg1 hstep hr
          have hgg : ∀ a b : Int, getCell g a b = some 0 →
              getCell (setCell (setCell g (z + d.dz / 2) (x + d.dx / 2) 0)
                (z + d.dz) (x + d.dx) 0) a b = some 0 := by
            intro a b h
            exact setCell0_keeps hwfg1 (x := x + d.dx) (z := z + d.dz) (by omega) (by omega)
              (by omega) (by omega)
              (setCell0_keeps hInv.wf (x := x + d.dx / 2) (z := z + d.dz / 2) hmb.1 hmb.2.1
                hmb.2.2.1 hmb.2.2.2 h)
          have hgch : ∀ a b : Int,
              getCell (setCell (setCell g (z + d.dz / 2) (x + d.dx / 2) 0)
                (z + d.dz) (x + d.dx) 0) a b = getCell g a b ∨
              getCell (setCell (setCell g (z + d.dz / 2) (x + d.dx / 2) 0)
                (z + d.dz) (x + d.dx) 0) a b = some 0 := by
            intro a b
            rcases setCell0_changes hwfg1 (x := x + d.dx) (z := z + d.dz) (by omega) (by omega)
              (by omega) (by omega) a b with hc | hc
            · rw [hc]
              exact setCell0_changes hInv.wf hmb.1 hmb.2.1 hmb.2.2.1 hmb.2.2.2 a b
            · exact Or.inr hc
          have hdone2 : ∀ e : Dir, e ∉ ds → 0 < x + e.dx → x + e.dx < W - 1 →
              0 < z + e.dz → z + e.dz < H - 1 →
              getCell g2x (x + e.dx) (z + e.dz) = some 0 := by
            intro e he hb1 hb2 hb3 hb4
            by_cases hed : e = d
            · subst hed
              apply hmono2
              rw [getCell_setCell hwfg1 0 (by omega) (by omega) (by omega) (by omega),
                if_pos ⟨rfl, rfl⟩]
            · refine hmono2 _ _ (hgg _ _ (hdone e ?_ hb1 hb2 hb3 hb4))
              intro hmem
              rcases List.mem_cons.mp hmem with hh | hh
              · exact hed hh
              · exact he hh
          obtain ⟨hInv3, hmono3, hchanges3, hdnew3, hnbr3⟩ :=
            carveLoop_inv hrec x z hx hz hx1 hx2 hz1 hz2 ds g2x k2x g2 k2 hInv2
              (hmono2 _ _ (hgg _ _ hcur)) hdone2 hrun
          refine ⟨hInv3, ?_, ?_, ?_, hnbr3⟩
          · intro a b h
            exact hmono3 _ _ (hmono2 _ _ (hgg _ _ h))
          · intro a b
            rcases hchanges3 a b with hc | hc
            · rcases hchanges2 a b with hc2 | hc2
              · rcases hgch a b with hc3 | hc3
                · rw [hc, hc2, hc3]
                  exact Or.inl rfl
                · rw [hc, hc2]
                  exact Or.inr hc3
              · rw [hc]
                exact Or.inr hc2
            · exact Or.inr hc
          · intro a b hpa hpb hwall1 hopen2
            by_cases hmem : getCell g2x a b = some 0
            · have hnemid : ¬(a = x + d.dx / 2 ∧ b = z + d.dz / 2) := by
                rcases dir_dxdz d with ⟨hdx, hdz⟩ | ⟨hdx, hdz⟩ | ⟨hdx, hdz⟩ | ⟨hdx, hdz⟩ <;>
                  rintro ⟨ha, hb⟩ <;> omega
              have h1x : getCell (setCell g (z + d.dz / 2) (x + d.dx / 2) 0) a b = some 1 := by
                rw [getCell_setCell hInv.wf 0 hmb.1 hmb.2.1 hmb.2.2.1 hmb.2.2.2,
                  if_neg hnemid]
                exact hwall1
              exact roomDone_mono hmono3 (hdnew2 a b hpa hpb h1x hmem)
            · have h1x : getCell g2x a b = some 1 := by
                rcases hchanges2 a b with hc | hc
                · rcases hgch a b with hc2 | hc2
                  · rw [hc, hc2]
                    exact hwall1
                  · exact absurd (hc.trans hc2) hmem
                · exact absurd hc hmem
              exact hdnew3 a b hpa hpb h1x hopen2
    · have hdone2 : ∀ e : Dir, e ∉ ds → 0 < x + e.dx → x + e.dx < W - 1 →
          0 < z + e.dz → z + e.dz < H - 1 →
          getCell g (x + e.dx) (z + e.dz) = some 0 := by
        intro e he hb1 hb2 hb3 hb4
        by_cases hed : e = d
        · subst hed
          rcases hInv.vals (x + e.dx) (z + e.dz) (by omega) (by omega) (by omega) (by omega)
            with h0 | h1
          · exact h0
          · exact absurd ⟨hb1, hb2, hb3, hb4, h1⟩ hadm
        · refine hdone e ?_ hb1 hb2 hb3 hb4
          intro hmem
          rcases List.mem_cons.mp hmem with hh | hh
          · exact hed hh
          · exact he hh
      exact carveLoop_inv hrec x z hx hz hx1 hx2 hz1 hz2 ds g k g2 k2 hInv hcur hdone2 hrun

theorem carvePassages_inv (rand : Nat → Nat) (W H : Int) :
    ∀ fuel : Nat, CarveSpec W H (carvePassages rand W H fuel)
  | 0 => by
    intro g x z k g2 k2 _ _ _ _ _ _ _ _ _ hrun
    rw [carvePassages] at hrun
    exact Except.noConfusion hrun
  | fuel + 1 => by
    intro g x z k g2 k2 hx hz hx1 hx2 hz1 hz2 hcell hwfg hInvM hrun
    rw [carvePassages] at hrun
    have hw := writeCell_eq_setCell hwfg (x := x) (z := z) 0 (by omega) (by omega) (by omega)
      (by omega)
    split at hrun
    · rename_i hw2
      rw [hw] at hw2
      exact Except.noConfusion hw2
    · rename_i gmx hw2
      rw [hw] at hw2
      injection hw2 with hw2
      subst hw2
      have hcur : getCell (setCell g z x 0) x z = some 0 := by
        rw [getCell_setCell hwfg 0 (by omega) (by omega) (by omega) (by omega),
          if_pos ⟨rfl, rfl⟩]
      have hdone0 : ∀ e : Dir, e ∉ shuffleArray rand k dirs4 → 0 < x + e.dx →
          x + e.dx < W - 1 → 0 < z + e.dz → z + e.dz < H - 1 →
          getCell (setCell g z x 0) (x + e.dx) (z + e.dz) = some 0 := by
        intro e he
        exact absurd ((mem_shuffleArray rand k dirs4 e).mpr (mem_dirs4 e)) he
      obtain ⟨hInv2, hmono2, hchanges2, hdnew2, hnbr2⟩ :=
        carveLoop_inv (carvePassages_inv rand W H fuel) x z hx hz hx1 hx2 hz1 hz2
          (shuffleArray rand k dirs4) (setCell g z x 0) (k + 3) g2 k2 hInvM hcur hdone0 hrun
      refine ⟨hInv2, hmono2, hchanges2, ?_⟩
      intro a b hpa hpb hwall1 hopen2
      by_cases hab : a = x ∧ b = z
      · rw [hab.1, hab.2]
        exact hnbr2
      · have h1x : getCell (setCell g z x 0) a b = some 1 := by
          rw [getCell_setCell hwfg 0 (by omega) (by omega) (by omega) (by omega), if_neg hab]
          exact hwall1
        exact hdnew2 a b hpa hpb h1x hopen2

theorem carveInv_init {W H : Int} (hW : 3 ≤ W) (hH : 3 ≤ H) :
    CarveInv W H (setCell (List.replicate H.toNat (List.replicate W.toNat 1)) 1 1 0) := by
  have hwf0 := WF_mkGrid W H
  have hg := getCell_setCell hwf0 (x := 1) (z := 1) 0 (by omega) (by omega) (by omega) (by omega)
  have hgm : ∀ a b : Int,
      getCell (setCell (List.replicate H.toNat (List.replicate W.toNat 1)) 1 1 0) a b =
      if a = 1 ∧ b = 1 then some 0
      else if 0 ≤ a ∧ a < W ∧ 0 ≤ b ∧ b < H then some 1 else none := by
    intro a b
    rw [hg a b, getCell_mkGrid]
  refine ⟨WF_setCell hwf0 (z := 1) 1 0 (by omega) (by omega), ?_, ?_, ?_, ?_, ?_, ?_, ?_⟩
  · intro a b h1 h2 h3 h4
    rw [hgm a b]
    split_ifs with hc1 hc2
    · exact Or.inl rfl
    · exact Or.inr rfl
    · exact absurd ⟨h1, h2, h3, h4⟩ hc2
  · intro a b h
    rw [hgm a b] at h
    split_ifs at h with hc1 hc2
    · omega
    · exact absurd h (by decide)
  · intro a b h
    rw [hgm a b] at h
    split_ifs at h with hc1 hc2
    · omega
    · exact absurd h (by decide)
  · intro a b h hev
    rw [hgm a b] at h
    split_ifs at h with hc1 hc2
    · omega
    · exact absurd h (by decide)
  · intro a b h hev
    rw [hgm a b] at h
    split_ifs at h with hc1 hc2
    · omega
    · exact absurd h (by decide)
  · intro a b h
    rw [hgm a b] at h
    split_ifs at h with hc1 hc2
    · rw [show ((a, b) : Int × Int) = (1, 1) from Prod.ext hc1.1 hc1.2]
      exact Relation.ReflTransGen.refl
    · exact absurd h (by decide)
  · have hOp : openSet W H (setCell (List.replicate H.toNat (List.replicate W.toNat 1)) 1 1 0) =
        {((1 : Int), (1 : Int))} := by
      apply Finset.ext
      intro p
      rw [mem_openSet, Finset.mem_singleton, hgm p.1 p.2]
      constructor
      · rintro ⟨hpb, hpv⟩
        split_ifs at hpv with hc1 hc2
        · exact Prod.ext hc1.1 hc1.2
        · exact absurd hpv (by decide)
      · rintro rfl
        refine ⟨mem_board.mpr ⟨by omega, by omega, by omega, by omega⟩, ?_⟩
        rw [if_pos ⟨rfl, rfl⟩]
    have hEH : edgeH W H (setCell (List.replicate H.toNat (List.replicate W.toNat 1)) 1 1 0) =
        ∅ := by
      rw [Finset.eq_empty_iff_forall_not_mem]
      intro p hp
      rw [mem_edgeH, hgm p.1 p.2, hgm (p.1 + 1) p.2] at hp
      obtain ⟨hpb, hv1, hv2⟩ := hp
      split_ifs at hv1 with hc1 hc2 <;> split_ifs at hv2 with hc3 hc4 <;>
        first
          | omega
          | exact absurd hv1 (by decide)
          | exact absurd hv2 (by decide)
    have hEV : edgeV W H (setCell (List.replicate H.toNat (List.replicate W.toNat 1)) 1 1 0) =
        ∅ := by
      rw [Finset.eq_empty_iff_forall_not_mem]
      intro p hp
      rw [mem_edgeV, hgm p.1 p.2, hgm p.1 (p.2 + 1)] at hp
      obtain ⟨hpb, hv1, hv2⟩ := hp
      split_ifs at hv1 with hc1 hc2 <;> split_ifs at hv2 with hc3 hc4 <;>
        first
          | omega
          | exact absurd hv1 (by decide)
          | exact absurd hv2 (by decide)
    rw [hOp, hEH, hEV, Finset.card_singleton, Finset.card_empty]

theorem rooms_complete {W H : Int} {g : Grid}
    (hstart : getCell g 1 1 = some 0)
    (hdone : ∀ a b : Int, a % 2 = 1 → b % 2 = 1 → 0 < a → a < W - 1 → 0 < b → b < H - 1 →
      getCell g a b = some 0 → roomDone W H g a b) :
    ∀ (n : Nat) (a b : Int), a + b ≤ (n : Int) → a % 2 = 1 → b % 2 = 1 → 0 < a →
      a < W - 1 → 0 < b → b < H - 1 → getCell g a b = some 0
  | 0 => by
    intro a b hn hpa hpb h1 h2 h3 h4
    omega
  | n + 1 => by
    intro a b hn hpa hpb h1 h2 h3 h4
    by_cases hA : a = 1
    · by_cases hB : b = 1
      · rw [hA, hB]
        exact hstart
      · have hsx : Dir.south.dx = 0 := rfl
        have hsz : Dir.south.dz = 2 := rfl
        have hprev := rooms_complete hstart hdone n a (b - 2) (by push_cast at hn ⊢; omega)
          hpa (by omega) h1 h2 (by omega) (by omega)
        have hstep := hdone a (b - 2) hpa (by omega) h1 h2 (by omega) (by omega) hprev
          Dir.south (by omega) (by omega) (by omega) (by omega)
        rw [hsx, hsz] at hstep
        rw [show a + 0 = a by omega, show b - 2 + 2 = b by omega] at hstep
        exact hstep
    · have hex : Dir.east.dx = 2 := rfl
      have hez : Dir.east.dz = 0 := rfl
      have hprev := rooms_complete hstart hdone n (a - 2) b (by push_cast at hn ⊢; omega)
        (by omega) hpb (by omega) (by omega) h3 h4
      have hstep := hdone (a - 2) b (by omega) hpb (by omega) (by omega) h3 h4 hprev
        Dir.east (by omega) (by omega) (by omega) (by omega)
      rw [hex, hez] at hstep
      rw [show a - 2 + 2 = a by omega, show b + 0 = b by omega] at hstep
      exact hstep

/-! ### The carved-grid description of a successful generate run -/

theorem generate_carved {rand : Nat → Nat} {m m' : MazeGenerator}
    (hW : 3 ≤ m.width) (hH : 3 ≤ m.height)
    (hgen : m.generate rand = .ok m') :
    m'.width = m.width ∧ m'.height = m.height ∧
    WF m.width m.height m'.grid ∧
    ∃ gc : Grid, CarveInv m.width m.height gc ∧
      (∀ a b : Int, a % 2 = 1 → b % 2 = 1 → 0 < a → a < m.width - 1 → 0 < b →
        b < m.height - 1 → getCell gc a b = some 0) ∧
      (∀ a b : Int, getCell m'.grid a b =
        if a = m.width - 2 ∧ b = m.height - 2 then some 2 else getCell gc a b) := by
  obtain ⟨hw', hh', gc, kc, g2, g3, hcarve, hw1, hw2, hw3⟩ := generate_ok_inv hgen
  have hwf0 := WF_mkGrid m.width m.height
  have hcell0 : getCell (List.replicate m.height.toNat (List.replicate m.width.toNat 1))
      1 1 = some 1 := by
    rw [getCell_mkGrid, if_pos ⟨by omega, by omega, by omega, by omega⟩]
  obtain ⟨hInvc, hmonoc, hchangesc, hdnewc⟩ :=
    carvePassages_inv rand m.width m.height (m.width.toNat * m.height.toNat + 1)
      _ 1 1 0 gc kc (by decide) (by decide) (by decide) (by omega) (by decide) (by omega)
      hcell0 hwf0 (carveInv_init hW hH) hcarve
  have hstart_c : getCell gc 1 1 = some 0 := by
    refine hmonoc _ _ ?_
    rw [getCell_setCell hwf0 0 (by omega) (by omega) (by omega) (by omega),
      if_pos ⟨rfl, rfl⟩]
  have hdone_c : ∀ a b : Int, a % 2 = 1 → b % 2 = 1 → 0 < a → a < m.width - 1 → 0 < b →
      b < m.height - 1 → getCell gc a b = some 0 → roomDone m.width m.height gc a b := by
    intro a b hpa hpb h1 h2 h3 h4 hopen
    refine hdnewc a b hpa hpb ?_ hopen
    rw [getCell_mkGrid, if_pos ⟨by omega, by omega, by omega, by omega⟩]
  have hrooms : ∀ a b : Int, a % 2 = 1 → b % 2 = 1 → 0 < a → a < m.width - 1 → 0 < b →
      b < m.height - 1 → getCell gc a b = some 0 := by
    intro a b hpa hpb h1 h2 h3 h4
    exact rooms_complete hstart_c hdone_c (a + b).toNat a b (by omega) hpa hpb h1 h2 h3 h4
  have hwfc := hInvc.wf
  have hw1x := writeCell_eq_setCell hwfc (x := 1) (z := 1) 0 (by omega) (by omega) (by omega)
    (by omega)
  rw [hw1x] at hw1
  injection hw1 with hw1
  subst hw1
  have hwf2 := WF_setCell hwfc (z := 1) 1 0 (by omega) (by omega)
  have hw2x := writeCell_eq_setCell hwf2 (x := m.width - 2) (z := m.height - 2) 0
    (by omega) (by omega) (by omega) (by omega)
  rw [hw2x] at hw2
  injection hw2 with hw2
  subst hw2
  have hwf3 := WF_setCell hwf2 (z := m.height - 2) (m.width - 2) 0 (by omega) (by omega)
  have hw3x := writeCell_eq_setCell hwf3 (x := m.width - 2) (z := m.height - 2) 2
    (by omega) (by omega) (by omega) (by omega)
  rw [hw3x] at hw3
  injection hw3 with hw3
  have hwfF : WF m.width m.height m'.grid := by
    rw [← hw3]
    exact WF_setCell hwf3 (z := m.height - 2) (m.width - 2) 2 (by omega) (by omega)
  refine ⟨hw', hh', hwfF, gc, hInvc, hrooms, ?_⟩
  intro a b
  rw [← hw3]
  rw [getCell_setCell hwf3 (x := m.width - 2) (z := m.height - 2) 2 (by omega) (by omega)
    (by omega) (by omega) a b]
  by_cases hend : a = m.width - 2 ∧ b = m.height - 2
  · rw [if_pos hend, if_pos hend]
  · rw [if_neg hend, if_neg hend]
    rw [getCell_setCell hwf2 (x := m.width - 2) (z := m.height - 2) 0 (by omega) (by omega)
      (by omega) (by omega) a b, if_neg hend]
    rw [getCell_setCell hwfc (x := 1) (z := 1) 0 (by omega) (by omega) (by omega)
      (by omega) a b]
    split_ifs with hc1
    · rw [hc1.1, hc1.2, hstart_c]
    · rfl

/-! ### Bridging the queries to the cell values -/

theorem query_eq_of_getCell {m : MazeGenerator} (hlen : m.grid.length = m.height.toNat)
    {x z : Int} (hin : 0 ≤ x ∧ x < m.width ∧ 0 ≤ z ∧ z < m.height) {v : Nat}
    (hv : getCell m.grid x z = some v) :
    m.isWall x z = .ok (v == 1) ∧ m.isExit x z = .ok (v == 2) := by
  obtain ⟨hx, hz, hzl, hxl, hval⟩ := getCell_expand hv
  unfold MazeGenerator.isWall MazeGenerator.isExit
  rw [if_neg (by omega), if_neg (by omega)]
  constructor
  · split
    · rename_i hnone
      rw [getD_eq_of_lt m.grid z.toNat hzl] at hnone
      exact Option.noConfusion hnone
    · rename_i row hrow
      have hre : row = m.grid.getD z.toNat [] := by
        have h2 := getD_eq_of_lt m.grid z.toNat hzl
        rw [hrow] at h2
        injection h2 with h2
      subst hre
      rw [hval]
      rfl
  · split
    · rename_i hnone
      rw [getD_eq_of_lt m.grid z.toNat hzl] at hnone
      exact Option.noConfusion hnone
    · rename_i row hrow
      have hre : row = m.grid.getD z.toNat [] := by
        have h2 := getD_eq_of_lt m.grid z.toNat hzl
        rw [hrow] at h2
        injection h2 with h2
      subst hre
      rw [hval]
      rfl

theorem walkable_iff {m : MazeGenerator} (hwf : WF m.width m.height m.grid) (a b : Int) :
    walkable m (a, b) ↔
      (0 ≤ a ∧ a < m.width ∧ 0 ≤ b ∧ b < m.height) ∧ getCell m.grid a b ≠ some 1 := by
  constructor
  · intro hwk
    unfold walkable at hwk
    by_cases hb : a < 0 ∨ m.width ≤ a ∨ b < 0 ∨ m.height ≤ b
    · unfold MazeGenerator.isWall at hwk
      rw [if_pos hb] at hwk
      injection hwk with hwk
      exact Bool.noConfusion hwk
    · have hin : 0 ≤ a ∧ a < m.width ∧ 0 ≤ b ∧ b < m.height := by omega
      obtain ⟨v, hv⟩ := getCell_total hwf hin.1 hin.2.1 hin.2.2.1 hin.2.2.2
      have hq := (query_eq_of_getCell hwf.1 hin hv).1
      rw [hq] at hwk
      injection hwk with hwk
      refine ⟨hin, ?_⟩
      rw [hv]
      intro hcon
      injection hcon with hcon
      rw [hcon] at hwk
      exact Bool.noConfusion hwk
  · rintro ⟨hin, hne⟩
    obtain ⟨v, hv⟩ := getCell_total hwf hin.1 hin.2.1 hin.2.2.1 hin.2.2.2
    have hq := (query_eq_of_getCell hwf.1 hin hv).1
    unfold walkable
    rw [hq]
    have hv1 : (v == 1) = false := by
      have : v ≠ 1 := by
        intro hcon
        rw [hcon] at hv
        exact hne hv
      exact beq_eq_false_iff_ne.mpr this
    rw [hv1]

/-! ### Claim C2: the border ring is all walls -/

/-- C2: for every constructor input whose normalized dimensions are at
least 3, after `generate()` completes successfully every in-bounds
border cell — `x = 0`, `x = width-1`, `z = 0` or `z = height-1` — is
reported as a wall by `isWall`. -/
theorem C2_border_walls (w h : Int) (rand : Nat → Nat) (m' : MazeGenerator)
    (hW : 3 ≤ normDim w) (hH : 3 ≤ normDim h)
    (hgen : (MazeGenerator.make w h).generate rand = .ok m') (x z : Int)
    (hx : 0 ≤ x) (hx2 : x < m'.getWidth) (hz : 0 ≤ z) (hz2 : z < m'.getHeight)
    (hborder : x = 0 ∨ x = m'.getWidth - 1 ∨ z = 0 ∨ z = m'.getHeight - 1) :
    m'.isWall x z = .ok true := by
  obtain ⟨hw', hh', hwfF, gc, hInv, hrooms, hpt⟩ := generate_carved hW hH hgen
  have e1 : (MazeGenerator.make w h).width = normDim w := rfl
  have e2 : (MazeGenerator.make w h).height = normDim h := rfl
  rw [e1] at hw'
  rw [e2] at hh'
  rw [e1, e2] at hwfF hInv
  have e3 : m'.getWidth = m'.width := rfl
  have e4 : m'.getHeight = m'.height := rfl
  rw [e3, hw'] at hx2 hborder
  rw [e4, hh'] at hz2 hborder
  have hne : ¬(x = (MazeGenerator.make w h).width - 2 ∧
      z = (MazeGenerator.make w h).height - 2) := by
    rw [e1, e2]
    rintro ⟨rfl, rfl⟩
    omega
  have hcell : getCell m'.grid x z = getCell gc x z := by
    rw [hpt x z, if_neg hne]
  have hval := hInv.vals x z hx hx2 hz hz2
  rcases hval with h0 | h1
  · have := hInv.interior x z h0
    omega
  · have hv : getCell m'.grid x z = some 1 := by
      rw [hcell]
      exact h1
    have hlen : m'.grid.length = m'.height.toNat := by
      rw [hh']
      exact hwfF.1
    have hq := (query_eq_of_getCell hlen (x := x) (z := z)
      (by rw [hw', hh']; exact ⟨hx, hx2, hz, hz2⟩) hv).1
    rw [hq]
    rfl

/-- C2 witness: on a generated 5 by 5 maze, the border cell `(0, 0)`
is a wall. -/
theorem C2_border_walls_witness :
    3 ≤ normDim 5 ∧ demoMaze.isWall 0 0 = .ok true :=
  ⟨by decide, C2_border_walls 5 5 randZero demoMaze (by decide) (by decide) (by decide)
    0 0 (by decide) (by decide) (by decide) (by decide) (by decide)⟩

/-! ### Claim C3: a single exit at (width-2, height-2) -/

/-- C3: for every constructor input whose normalized dimensions are at
least 3, after `generate()` completes successfully, `isExit` holds
exactly at the coordinate `(width-2, height-2)`, and exactly one cell
of the grid is an exit. -/
theorem C3_single_exit (w h : Int) (rand : Nat → Nat) (m' : MazeGenerator)
    (hW : 3 ≤ normDim w) (hH : 3 ≤ normDim h)
    (hgen : (MazeGenerator.make w h).generate rand = .ok m') :
    (∀ x z : Int, m'.isExit x z = .ok true ↔
      x = m'.getWidth - 2 ∧ z = m'.getHeight - 2) ∧
    ((board m'.getWidth m'.getHeight).filter
      (fun p => m'.isExit p.1 p.2 = .ok true)).card = 1 := by
  obtain ⟨hw', hh', hwfF, gc, hInv, hrooms, hpt⟩ := generate_carved hW hH hgen
  have e1 : (MazeGenerator.make w h).width = normDim w := rfl
  have e2 : (MazeGenerator.make w h).height = normDim h := rfl
  rw [e1] at hw'
  rw [e2] at hh'
  rw [e1, e2] at hwfF hInv hpt
  have e3 : m'.getWidth = m'.width := rfl
  have e4 : m'.getHeight = m'.height := rfl
  have hlen : m'.grid.length = m'.height.toNat := by
    rw [hh']
    exact hwfF.1
  have hiff : ∀ x z : Int, m'.isExit x z = .ok true ↔
      x = m'.getWidth - 2 ∧ z = m'.getHeight - 2 := by
    intro x z
    rw [e3, e4, hw', hh']
    constructor
    · intro hex
      by_cases hb : x < 0 ∨ m'.width ≤ x ∨ z < 0 ∨ m'.height ≤ z
      · unfold MazeGenerator.isExit at hex
        rw [if_pos hb] at hex
        injection hex with hex
        exact Bool.noConfusion hex
      · have hin : 0 ≤ x ∧ x < normDim w ∧ 0 ≤ z ∧ z < normDim h := by
          rw [hw', hh'] at hb
          omega
        obtain ⟨v, hv⟩ := getCell_total hwfF hin.1 hin.2.1 hin.2.2.1 hin.2.2.2
        have hq := (query_eq_of_getCell hlen (x := x) (z := z)
          (by rw [hw', hh']; exact hin) hv).2
        rw [hq] at hex
        injection hex with hex
        have hv2 : v = 2 := by
          have := of_decide_eq_true (by rw [← beq_iff_eq] at *; exact hex)
          omega
        by_contra hne
        rw [hpt x z, if_neg hne] at hv
        rcases hInv.vals x z hin.1 hin.2.1 hin.2.2.1 hin.2.2.2 with h0 | h1
        · rw [h0] at hv
          injection hv with hv
          omega
        · rw [h1] at hv
          injection hv with hv
          omega
    · rintro ⟨rfl, rfl⟩
      have hv : getCell m'.grid (normDim w - 2) (normDim h - 2) = some 2 := by
        rw [hpt, if_pos ⟨rfl, rfl⟩]
      have hq := (query_eq_of_getCell hlen
        (x := normDim w - 2) (z := normDim h - 2)
        (by rw [hw', hh']; omega) hv).2
      rw [hq]
      rfl
  refine ⟨hiff, ?_⟩
  have hset : (board m'.getWidth m'.getHeight).filter
      (fun p => m'.isExit p.1 p.2 = .ok true) =
      {(m'.getWidth - 2, m'.getHeight - 2)} := by
    ext p
    rw [Finset.mem_filter, Finset.mem_singleton, mem_board]
    constructor
    · rintro ⟨hb, hex⟩
      have := (hiff p.1 p.2).mp hex
      rw [Prod.ext_iff]
      exact this
    · intro hp
      subst hp
      rw [e3, e4, hw', hh']
      refine ⟨by constructor <;> [omega; constructor <;> [omega; constructor <;> omega]], ?_⟩
      exact (hiff _ _).mpr ⟨by rw [e3, hw'], by rw [e4, hh']⟩
  rw [hset]
  exact Finset.card_singleton _

/-- C3 witness: on a generated 5 by 5 maze, `(3, 3)` is the exit and
the exit-cell count is 1. -/
theorem C3_single_exit_witness :
    3 ≤ normDim 5 ∧
    (demoMaze.isExit 3 3 = .ok true ↔
      (3 : Int) = demoMaze.getWidth - 2 ∧ (3 : Int) = demoMaze.getHeight - 2) ∧
    ((board demoMaze.getWidth demoMaze.getHeight).filter
      (fun p => demoMaze.isExit p.1 p.2 = .ok true)).card = 1 := by
  have hc := C3_single_exit 5 5 randZero demoMaze (by decide) (by decide) (by decide)
  exact ⟨by decide, hc.1 3 3, hc.2⟩

/-! ### Claim C8: the start and end cells are open -/

/-- C8: for every constructor input whose normalized dimensions are at
least 3, after `generate()` completes successfully, the cells at
`getStart() = (1, 1)` and `getEnd() = (width-2, height-2)` are both
non-wall. -/
theorem C8_start_end_open (w h : Int) (rand : Nat → Nat) (m' : MazeGenerator)
    (hW : 3 ≤ normDim w) (hH : 3 ≤ normDim h)
    (hgen : (MazeGenerator.make w h).generate rand = .ok m') :
    m'.isWall m'.getStart.1 m'.getStart.2 = .ok false ∧
    m'.isWall m'.getEnd.1 m'.getEnd.2 = .ok false := by
  obtain ⟨hw', hh', hwfF, gc, hInv, hrooms, hpt⟩ := generate_carved hW hH hgen
  have e1 : (MazeGenerator.make w h).width = normDim w := rfl
  have e2 : (MazeGenerator.make w h).height = normDim h := rfl
  rw [e1] at hw'
  rw [e2] at hh'
  rw [e1, e2] at hwfF hInv hpt hrooms
  have hlen : m'.grid.length = m'.height.toNat := by
    rw [hh']
    exact hwfF.1
  constructor
  · have h11 : getCell m'.grid 1 1 = some 2 ∨ getCell m'.grid 1 1 = some 0 := by
      rw [hpt 1 1]
      split_ifs with hc
      · exact Or.inl rfl
      · exact Or.inr (hrooms 1 1 (by decide) (by decide) (by decide) (by omega)
          (by decide) (by omega))
    rcases h11 with hv | hv
    · have hq := (query_eq_of_getCell hlen (x := 1) (z := 1)
        (by rw [hw', hh']; omega) hv).1
      exact hq
    · have hq := (query_eq_of_getCell hlen (x := 1) (z := 1)
        (by rw [hw', hh']; omega) hv).1
      exact hq
  · have hv : getCell m'.grid (normDim w - 2) (normDim h - 2) = some 2 := by
      rw [hpt, if_pos ⟨rfl, rfl⟩]
    have hq := (query_eq_of_getCell hlen
      (x := normDim w - 2) (z := normDim h - 2)
      (by rw [hw', hh']; omega) hv).1
    have he : m'.getEnd = (normDim w - 2, normDim h - 2) := by
      unfold MazeGenerator.getEnd
      rw [hw', hh']
    rw [he]
    exact hq

/-- C8 witness: on a generated 5 by 5 maze, the start `(1, 1)` and the
end `(3, 3)` are both non-wall. -/
theorem C8_start_end_open_witness :
    3 ≤ normDim 5 ∧
    demoMaze.isWall demoMaze.getStart.1 demoMaze.getStart.2 = .ok false ∧
    demoMaze.isWall demoMaze.getEnd.1 demoMaze.getEnd.2 = .ok false :=
  ⟨by decide, C8_start_end_open 5 5 randZero demoMaze (by decide) (by decide) (by decide)⟩

/-! ### Claim C1: the generated maze is a perfect maze -/

/-- C1: for every constructor input whose normalized dimensions are at
least 5, after `generate()` completes successfully, the non-wall cells
contain the start `(1, 1)` and the exit `(width-2, height-2)`, every
non-wall cell is reachable from the start through non-wall 4-adjacent
steps (single connected component), and the number of non-wall cells
exceeds the number of open 4-adjacencies by exactly one — the passage
graph is a tree. -/
theorem C1_perfect_maze (w h : Int) (rand : Nat → Nat) (m' : MazeGenerator)
    (hW : 5 ≤ normDim w) (hH : 5 ≤ normDim h)
    (hgen : (MazeGenerator.make w h).generate rand = .ok m') :
    m'.getStart ∈ mazeCells m' ∧ m'.getEnd ∈ mazeCells m' ∧
    (∀ p ∈ mazeCells m', mazeReach m' m'.getStart p) ∧
    (mazeCells m').card = (mazeEdgeH m').card + (mazeEdgeV m').card + 1 := by
  obtain ⟨hw', hh', hwfF, gc, hInv, hrooms, hpt⟩ :=
    generate_carved (by omega : (3:Int) ≤ normDim w) (by omega : (3:Int) ≤ normDim h) hgen
  have e1 : (MazeGenerator.make w h).width = normDim w := rfl
  have e2 : (MazeGenerator.make w h).height = normDim h := rfl
  rw [e1] at hw'
  rw [e2] at hh'
  rw [e1, e2] at hwfF hInv hpt hrooms
  have hoddW : normDim w % 2 = 1 := normDim_odd w
  have hoddH : normDim h % 2 = 1 := normDim_odd h
  have hend_open : getCell gc (normDim w - 2) (normDim h - 2) = some 0 :=
    hrooms _ _ (by omega) (by omega) (by omega) (by omega) (by omega) (by omega)
  have hstart_open : getCell gc 1 1 = some 0 :=
    hrooms 1 1 (by decide) (by decide) (by decide) (by omega) (by decide) (by omega)
  have hwf' : WF m'.width m'.height m'.grid := by
    rw [hw', hh']
    exact hwfF
  have hwalk : ∀ p : Int × Int, walkable m' p ↔ getCell gc p.1 p.2 = some 0 := by
    intro p
    rw [walkable_iff hwf' p.1 p.2, hw', hh']
    constructor
    · rintro ⟨hin, hne⟩
      rcases hInv.vals p.1 p.2 hin.1 hin.2.1 hin.2.2.1 hin.2.2.2 with h0 | h1
      · exact h0
      · exfalso
        apply hne
        rw [hpt p.1 p.2]
        split_ifs with hc
        · exfalso
          rw [hc.1, hc.2, hend_open] at h1
          injection h1 with h1
          omega
        · exact h1
    · intro hop
      refine ⟨openCell_bounds hInv hop, ?_⟩
      rw [hpt p.1 p.2]
      split_ifs with hc
      · intro hcon
        injection hcon with hcon
        omega
      · rw [hop]
        intro hcon
        injection hcon with hcon
        omega
  have hcells : mazeCells m' = openSet (normDim w) (normDim h) gc := by
    unfold mazeCells
    rw [hw', hh']
    ext p
    rw [Finset.mem_filter, mem_openSet]
    constructor
    · rintro ⟨hb, hwk⟩
      exact ⟨hb, (hwalk p).mp hwk⟩
    · rintro ⟨hb, hop⟩
      exact ⟨hb, (hwalk p).mpr hop⟩
  have hedgeH : mazeEdgeH m' = edgeH (normDim w) (normDim h) gc := by
    unfold mazeEdgeH
    rw [hw', hh']
    ext p
    rw [Finset.mem_filter, mem_edgeH]
    constructor
    · rintro ⟨hb, hwk, hwk2⟩
      exact ⟨hb, (hwalk p).mp hwk, (hwalk (p.1 + 1, p.2)).mp hwk2⟩
    · rintro ⟨hb, hop, hop2⟩
      exact ⟨hb, (hwalk p).mpr hop, (hwalk (p.1 + 1, p.2)).mpr hop2⟩
  have hedgeV : mazeEdgeV m' = edgeV (normDim w) (normDim h) gc := by
    unfold mazeEdgeV
    rw [hw', hh']
    ext p
    rw [Finset.mem_filter, mem_edgeV]
    constructor
    · rintro ⟨hb, hwk, hwk2⟩
      exact ⟨hb, (hwalk p).mp hwk, (hwalk (p.1, p.2 + 1)).mp hwk2⟩
    · rintro ⟨hb, hop, hop2⟩
      exact ⟨hb, (hwalk p).mpr hop, (hwalk (p.1, p.2 + 1)).mpr hop2⟩
  refine ⟨?_, ?_, ?_, ?_⟩
  · have hs : m'.getStart = ((1 : Int), (1 : Int)) := rfl
    rw [hs, hcells, mem_openSet]
    exact ⟨mem_board.mpr ⟨by decide, by omega, by decide, by omega⟩, hstart_open⟩
  · rw [hcells, mem_openSet]
    have he : m'.getEnd = (normDim w - 2, normDim h - 2) := by
      unfold MazeGenerator.getEnd
      rw [hw', hh']
    rw [he]
    exact ⟨mem_board.mpr ⟨by omega, by omega, by omega, by omega⟩, hend_open⟩
  · intro p hp
    rw [hcells, mem_openSet] at hp
    have hreach : ReachOpen gc (p.1, p.2) := hInv.reach p.1 p.2 hp.2
    have hstep : ∀ a b : Int × Int, stepOpen gc a b → mazeStep m' a b := by
      intro a b hs
      exact ⟨(hwalk b).mpr hs.1, hs.2⟩
    exact Relation.ReflTransGen.mono hstep hreach
  · rw [hcells, hedgeH, hedgeV]
    exact hInv.card

/-- C1 witness: the perfect-maze conclusions at a generated 5 by 5
maze, with reachability instantiated at the exit cell. -/
theorem C1_perfect_maze_witness :
    (5 ≤ normDim 5 ∧ (MazeGenerator.make 5 5).generate randZero = .ok demoMaze) ∧
    demoMaze.getStart ∈ mazeCells demoMaze ∧
    demoMaze.getEnd ∈ mazeCells demoMaze ∧
    mazeReach demoMaze demoMaze.getStart demoMaze.getEnd ∧
    (mazeCells demoMaze).card = (mazeEdgeH demoMaze).card + (mazeEdgeV demoMaze).card + 1 := by
  have hc := C1_perfect_maze 5 5 randZero demoMaze (by decide) (by decide) (by decide)
  exact ⟨⟨by decide, by decide⟩, hc.1, hc.2.1, hc.2.2.1 demoMaze.getEnd hc.2.1, hc.2.2.2⟩
